import Mathlib

/-!
Shallow embedding of the typeorm-dynamic-repo query layer:
`src/dynamic/query-tree.ts` (`buildQueryTree`, `QueryTree`), the dynamic
repository source (`selectJoinNeccessaryAttributes`,
`selectEntityQueryFields`, `addOrderByOptions`, `addWhereOptions`,
`buildQueryRecursively`, `generateQueryBuilder`, `DynamicRepository`), and
`src/query/query-options.interface.ts`.

Conventions: TypeScript strings are Lean `String`s; the runtime values of the
`FilterOperator` and `OrderType` string enums are the literal strings of the
source; JavaScript objects used as insertion-ordered string-keyed maps are
association lists (relation property names are not numeric strings, so the
JavaScript key order is insertion order); the mutated `exploredEntities`
array, shared by reference across the whole recursive traversal, is threaded
in state-passing style, each call returning the array's final contents; the
unbounded TypeScript recursion carries an explicit fuel, whose exhaustion
stands for a stack overflow; a thrown `RepositoryInvalidArgumentException`
is an `Except` error carrying the message.
-/

namespace DynRepo

/-- Characters of a string before the first dot and after it; `some` exactly
when `field.split('.')` has length greater than one in the source. -/
def breakAtDot : List Char → Option (List Char × List Char)
  | [] => none
  | c :: rest =>
    if c = '.' then some ([], rest)
    else (breakAtDot rest).map (fun p => (c :: p.1, p.2))

/-- The relation prefix and remainder of a dotted path: mirrors
`field.split('.')` with `join.length > 1`, `join[0]` and
`field.substring(field.indexOf('.') + 1, field.length)`. -/
def splitHead (field : String) : Option (String × String) :=
  (breakAtDot field.data).map (fun p => (⟨p.1⟩, ⟨p.2⟩))

/-- JavaScript assignment `m[k] = v` on an insertion-ordered map: an existing
key keeps its position and gets the new value, a new key is appended. -/
def assocSet {α : Type} (m : List (String × α)) (k : String) (v : α) :
    List (String × α) :=
  if m.any (fun p => p.1 == k) then m.map (fun p => if p.1 == k then (k, v) else p)
  else m ++ [(k, v)]

/-- The source pattern `if (!(k in m)) m[k] = []; m[k].push(v)` on an
insertion-ordered map of lists. -/
def assocPush {α : Type} (m : List (String × List α)) (k : String) (v : α) :
    List (String × List α) :=
  if m.any (fun p => p.1 == k) then
    m.map (fun p => if p.1 == k then (k, p.2 ++ [v]) else p)
  else m ++ [(k, [v])]

/-- JavaScript property read `m[k]`, `none` for a missing key. -/
def assocGet {α : Type} (m : List (String × α)) (k : String) : Option α :=
  (m.find? (fun p => p.1 == k)).map (·.2)

/-- The join-column pairs of an inverse relation descriptor (only the
`databaseName`s of its `joinColumns` and `inverseJoinColumns` are read). -/
structure InverseRelationMeta where
  joinColumns : List String
  inverseJoinColumns : List String
deriving DecidableEq

/-- TypeORM `RelationMetadata` restricted to the fields the sources read.
`inverseTableName` stands for `relation.inverseEntityMetadata.tableName`;
the object back-reference is resolved through the data source by name. -/
structure RelationMeta where
  propertyPath : String
  inverseTableName : String
  isEager : Bool
  joinColumns : List String
  inverseJoinColumns : List String
  inverseRelation : Option InverseRelationMeta
deriving DecidableEq

/-- TypeORM `EntityMetadata` restricted to the fields the sources read;
`columns` is the list of the columns' `propertyName`s. -/
structure EntityMeta where
  tableName : String
  columns : List String
  relations : List RelationMeta
deriving DecidableEq

/-- The TypeORM data source as a schema catalog: entity identifier to
metadata. -/
abbrev DataSource := List (String × EntityMeta)

/-- `dataSource.getMetadata(table)`; `none` models the throw on an unknown
entity. -/
def getMetadata (db : DataSource) (table : String) : Option EntityMeta :=
  assocGet db table

/-- `FilterType`; `operator` holds the runtime string of the `FilterOperator`
enum member (the TypeScript value space of a string enum). -/
structure FilterType where
  field : String
  operator : String
  value : String
deriving DecidableEq

/-- `OrderingBy`; `type` holds the runtime string of the `OrderType` enum. -/
structure OrderingBy where
  field : String
  type : String
deriving DecidableEq

namespace FilterOperator

def IN : String := "in"

def CONTAINS : String := "contains"

def STARTS_WITH : String := "startsWith"

def ENDS_WITH : String := "endsWith"

def LOWER : String := "<"

def LOWER_OR_EQUAL : String := "<="

def GREATER : String := ">"

def GREATER_OR_EQUAL : String := ">="

def EQUAL : String := "="

def NOT_EQUAL : String := "!="

end FilterOperator

namespace OrderType

def ASC : String := "asc"

def DESC : String := "desc"

end OrderType

/-- `CommonQueryOptions`; the source field `where` (a Lean keyword) is named
`whereF` here. -/
structure CommonQueryOptions where
  selections : Option (List String) := none
  whereF : Option (List FilterType) := none
  ordering : Option (List OrderingBy) := none
deriving DecidableEq

/-- `CommonFindOptions` with the defaults the source destructuring applies. -/
structure CommonFindOptions where
  onlyEager : Bool := true
  allowRecursively : List String := []
deriving DecidableEq

/-- `CommonSQLClauses`; the source field `where` is named `whereF` here, and
a field is `none` exactly when the source never assigned it. -/
structure CommonSQLClauses where
  whereF : Option (List FilterType) := none
  ordering : Option (List OrderingBy) := none
deriving DecidableEq

/-- `QueryTree`: a node with its name, this-level clauses and child fields. -/
inductive QueryTree where
  | mk (name : String) (clauses : CommonSQLClauses) (fields : List QueryTree)

/-- The node's `name`. -/
def QueryTree.name : QueryTree → String
  | .mk n _ _ => n

/-- The node's `clauses`. -/
def QueryTree.clauses : QueryTree → CommonSQLClauses
  | .mk _ c _ => c

/-- The node's `fields`. -/
def QueryTree.fields : QueryTree → List QueryTree
  | .mk _ _ f => f

/-- `QueryTree.isRelation`: true exactly when the child list is non-empty. -/
def QueryTree.isRelation (t : QueryTree) : Bool :=
  !t.fields.isEmpty

/-- `QueryTree.getField`: first child with the given name. -/
def QueryTree.getField (t : QueryTree) (name : String) : Option QueryTree :=
  t.fields.find? (fun f => f.name == name)

/-- Failure modes of tree construction: a thrown
`RepositoryInvalidArgumentException`, a metadata lookup miss, or fuel
exhaustion standing for the unbounded recursion overflowing the stack. -/
inductive BuildErr where
  | invalidArgument (msg : String)
  | metadataNotFound (table : String)
  | outOfFuel
deriving DecidableEq

/-- The message of the unknown-relation exception. -/
def relationMsg (relation tableName : String) : String :=
  "Relation '" ++ relation ++ "' does not exist in " ++ tableName ++ " entity"

/-- The message of the unknown-field exception. -/
def fieldMsg (field tableName : String) : String :=
  "Field '" ++ field ++ "' does not exist in " ++ tableName ++ " entity"

/-- The keys of `relationTableNames`: each relation's `propertyPath`. -/
def relNamesOf (m : EntityMeta) : List String :=
  m.relations.map (·.propertyPath)

/-- `tableFields`: column property names that are not keys of
`relationTableNames`. -/
def tableFieldsOf (m : EntityMeta) : List String :=
  m.columns.filter (fun c => decide (c ∉ relNamesOf m))

/-- `relationTableNames[name]` after the `forEach` assignments: the
`inverseEntityMetadata.tableName` of the last relation with this property
path (repeated assignment overwrites). -/
def relationTableLookup (relations : List RelationMeta) (name : String) :
    Option String :=
  (relations.reverse.find? (fun r => r.propertyPath == name)).map (·.inverseTableName)

/-- The wildcard loop `tableFields.forEach(field => if
(!selections.includes(field)) selections.push(field))`, the checked list
growing as it goes. -/
def appendMissing (base : List String) : List String → List String
  | [] => base
  | f :: rest =>
    if f ∈ base then appendMissing base rest else appendMissing (base ++ [f]) rest

/-- Wildcard expansion: when `*` is present, drop every `*` and append each
table field not already listed. -/
def expandWildcard (tableFields sels : List String) : List String :=
  if "*" ∈ sels then appendMissing (sels.filter (fun s => decide (s ≠ "*"))) tableFields
  else sels

/-- The `selections.forEach` of `buildQueryTree`: route each entry to the
this-level selections or to a relation's accumulator, throwing on an unknown
relation prefix or field. -/
def routeSelList (tableName : String) (tableFields relNames : List String) :
    List String → List String → List (String × List String) →
    Except BuildErr (List String × List (String × List String))
  | [], ts, rs => .ok (ts, rs)
  | field :: rest, ts, rs =>
    match splitHead field with
    | some (relation, relationField) =>
      if relation ∈ relNames then
        routeSelList tableName tableFields relNames rest ts (assocPush rs relation relationField)
      else .error (.invalidArgument (relationMsg relation tableName))
    | none =>
      if field ∈ relNames then
        routeSelList tableName tableFields relNames rest ts (assocSet rs field [])
      else if field ∈ tableFields then
        routeSelList tableName tableFields relNames rest (ts ++ [field]) rs
      else .error (.invalidArgument (fieldMsg field tableName))

/-- The relations selected by the no-selections branch: every (eager, unless
`onlyEager` is disabled) relation whose target table is unexplored or listed
in `allowRecursively`. -/
def defaultRelationKeys (m : EntityMeta) (fo : CommonFindOptions)
    (explored : List String) : List RelationMeta :=
  let rels := if fo.onlyEager then m.relations.filter (·.isEager) else m.relations
  rels.filter (fun r =>
    decide (r.inverseTableName ∉ explored) || decide (r.inverseTableName ∈ fo.allowRecursively))

/-- Selection resolution of one `buildQueryTree` level: the explicit branch
(non-empty `selections`, `selections?.length` truthy) expands the wildcard
and routes every entry; otherwise all table fields plus the default relation
keys are selected. -/
def routeSelections (m : EntityMeta) (fo : CommonFindOptions) (explored : List String)
    (selections : Option (List String)) :
    Except BuildErr (List String × List (String × List String)) :=
  match selections with
  | some (sel0 :: sels) =>
    routeSelList m.tableName (tableFieldsOf m) (relNamesOf m)
      (expandWildcard (tableFieldsOf m) (sel0 :: sels)) [] []
  | _ =>
    .ok (tableFieldsOf m,
      (defaultRelationKeys m fo explored).foldl (fun rs r => assocSet rs r.propertyPath []) [])

/-- The `where.forEach` of `buildQueryTree`: validate and collect this-level
filters, force-adding each filtered field to the selection list, and route
relation-prefixed filters. -/
def routeWhereList (tableName : String) (tableFields relNames : List String) :
    List FilterType → List String → List FilterType → List (String × List FilterType) →
    Except BuildErr (List String × List FilterType × List (String × List FilterType))
  | [], ts, tf, rf => .ok (ts, tf, rf)
  | filter :: rest, ts, tf, rf =>
    match splitHead filter.field with
    | some (relation, relationFilter) =>
      if relation ∈ relNames then
        routeWhereList tableName tableFields relNames rest ts tf
          (assocPush rf relation ⟨relationFilter, filter.operator, filter.value⟩)
      else .error (.invalidArgument (relationMsg relation tableName))
    | none =>
      if filter.field ∈ tableFields then
        routeWhereList tableName tableFields relNames rest
          (if filter.field ∈ ts then ts else ts ++ [filter.field]) (tf ++ [filter]) rf
      else .error (.invalidArgument (fieldMsg filter.field tableName))

/-- `routeWhereList` under the `if (where)` guard: `none` input leaves the
clauses unset. -/
def routeWhere (tableName : String) (tableFields relNames : List String)
    (whereF : Option (List FilterType)) (ts : List String) :
    Except BuildErr (List String × Option (List FilterType) × List (String × List FilterType)) :=
  match whereF with
  | none => .ok (ts, none, [])
  | some l =>
    match routeWhereList tableName tableFields relNames l ts [] [] with
    | .error e => .error e
    | .ok (ts', tf, rf) => .ok (ts', some tf, rf)

/-- The `ordering.forEach` of `buildQueryTree`: validate and collect
this-level ordering, force-adding each ordered field to the selection list,
and route relation-prefixed entries. -/
def routeOrderList (tableName : String) (tableFields relNames : List String) :
    List OrderingBy → List String → List OrderingBy → List (String × List OrderingBy) →
    Except BuildErr (List String × List OrderingBy × List (String × List OrderingBy))
  | [], ts, tord, ro => .ok (ts, tord, ro)
  | orderBy :: rest, ts, tord, ro =>
    match splitHead orderBy.field with
    | some (relation, relationOrdering) =>
      if relation ∈ relNames then
        routeOrderList tableName tableFields relNames rest ts tord
          (assocPush ro relation ⟨relationOrdering, orderBy.type⟩)
      else .error (.invalidArgument (relationMsg relation tableName))
    | none =>
      if orderBy.field ∈ tableFields then
        routeOrderList tableName tableFields relNames rest
          (if orderBy.field ∈ ts then ts else ts ++ [orderBy.field]) (tord ++ [orderBy]) ro
      else .error (.invalidArgument (fieldMsg orderBy.field tableName))

/-- `routeOrderList` under the `if (ordering)` guard. -/
def routeOrdering (tableName : String) (tableFields relNames : List String)
    (ordering : Option (List OrderingBy)) (ts : List String) :
    Except BuildErr (List String × Option (List OrderingBy) × List (String × List OrderingBy)) :=
  match ordering with
  | none => .ok (ts, none, [])
  | some l =>
    match routeOrderList tableName tableFields relNames l ts [] [] with
    | .error e => .error e
    | .ok (ts', tord, ro) => .ok (ts', some tord, ro)

/-- The recursion loop over `Object.keys(relationsSelections)`: build each
relation subtree through `recur` (the recursive call at one less stack
depth), threading the shared explored list from child to child. -/
def buildChildren
    (recur : String → String → CommonQueryOptions → List String →
      Except BuildErr (QueryTree × List String))
    (relations : List RelationMeta)
    (relFilters : List (String × List FilterType))
    (relOrders : List (String × List OrderingBy)) :
    List (String × List String) → List String →
    Except BuildErr (List QueryTree × List String)
  | [], explored => .ok ([], explored)
  | (relation, sels) :: rest, explored =>
    let qo : CommonQueryOptions :=
      { selections := some sels
        ordering := assocGet relOrders relation
        whereF := assocGet relFilters relation }
    match relationTableLookup relations relation with
    | none => .error (.metadataNotFound relation)
    | some targetTable =>
      match recur targetTable relation qo explored with
      | .error e => .error e
      | .ok (child, explored') =>
        match buildChildren recur relations relFilters relOrders rest explored' with
        | .error e => .error e
        | .ok (children, explored'') => .ok (child :: children, explored'')

/-- `buildQueryTree` (src/dynamic/query-tree.ts). The fuel bounds the stack
depth of the unbounded TypeScript recursion; the threaded list returns the
final contents of the mutated, shared `exploredEntities` array. -/
def buildQueryTree (db : DataSource) :
    Nat → String → String → CommonFindOptions → CommonQueryOptions → List String →
    Except BuildErr (QueryTree × List String)
  | 0, _, _, _, _, _ => .error .outOfFuel
  | fuel + 1, table, propertyPath, fo, qo, explored =>
    match getMetadata db table with
    | none => .error (.metadataNotFound table)
    | some m =>
      let explored1 := explored ++ [m.tableName]
      match routeSelections m fo explored1 qo.selections with
      | .error e => .error e
      | .ok (ts0, relSels) =>
        match routeWhere m.tableName (tableFieldsOf m) (relNamesOf m) qo.whereF ts0 with
        | .error e => .error e
        | .ok (ts1, w, relFilters) =>
          match routeOrdering m.tableName (tableFieldsOf m) (relNamesOf m) qo.ordering ts1 with
          | .error e => .error e
          | .ok (ts2, o, relOrders) =>
            match buildChildren (fun t p q ex => buildQueryTree db fuel t p fo q ex)
                m.relations relFilters relOrders relSels explored1 with
            | .error e => .error e
            | .ok (children, explored2) =>
              .ok (.mk propertyPath ⟨w, o⟩
                (ts2.map (fun s => .mk s {} []) ++ children), explored2)

/-- `QueryTree.createTree`: the root call, with a fresh explored list and the
entity identifier as both table and root node name. -/
def createTree (db : DataSource) (fuel : Nat) (entityClass : String)
    (queryOptions : CommonQueryOptions) (findOptions : CommonFindOptions) :
    Except BuildErr (QueryTree × List String) :=
  buildQueryTree db fuel entityClass entityClass findOptions queryOptions []

/-- `ALIAS_STRATEGY`: alias separator of the emitter. -/
def ALIAS_STRATEGY : String := "__"

/-- One bound placeholder value: a literal string, or the list bound by the
in-list operator. -/
inductive ParamVal where
  | str (s : String)
  | list (l : List String)
deriving DecidableEq

/-- The query-builder state the emitter drives: AND-ed where clauses (clause
text, placeholder name, bound value), order-by entries, left joins (join
path, aliasN) and the final select list. -/
structure QB where
  whereClauses : List (String × String × ParamVal) := []
  orderBys : List (String × String) := []
  joins : List (String × String) := []
  selectList : List String := []
deriving DecidableEq

/-- `addSelections`: push each new selection not already present. -/
def addSelections (selections newSelections : List String) : List String :=
  newSelections.foldl (fun acc s => if s ∈ acc then acc else acc ++ [s]) selections

/-- `selectJoinNeccessaryAttributes`: add both sides of the relation's join
columns and, when an inverse relation descriptor exists, both sides of its
join columns, scoped to the current and the related aliasN. -/
def selectJoinNeccessaryAttributes (selections : List String)
    (relation : RelationMeta) (aliasN relationAlias : String) : List String :=
  let joinColumns := relation.joinColumns.map (fun c => aliasN ++ "." ++ c)
  let inverseJoinColumns :=
    relation.inverseJoinColumns.map (fun c => relationAlias ++ "." ++ c)
  let s1 := addSelections (addSelections selections joinColumns) inverseJoinColumns
  match relation.inverseRelation with
  | none => s1
  | some ir =>
    let irJoin := ir.joinColumns.map (fun c => relationAlias ++ "." ++ c)
    let irInverse := ir.inverseJoinColumns.map (fun c => aliasN ++ "." ++ c)
    addSelections (addSelections s1 irJoin) irInverse

/-- `selectEntityQueryFields`: select every non-relation child of this tree
level, qualified by the alias. -/
def selectEntityQueryFields (selections : List String) (tree : QueryTree)
    (aliasN : String) : List String :=
  addSelections selections
    ((tree.fields.filter (fun f => !f.isRelation)).map (fun f => aliasN ++ "." ++ f.name))

/-- `addOrderByOptions`: append this node's ordering entries qualified by the
aliasN; an unrecognized direction is dropped. -/
def addOrderByOptions (qb : QB) (tree : QueryTree) (aliasN : String) : QB :=
  match tree.clauses.ordering with
  | none => qb
  | some l =>
    { qb with
      orderBys := qb.orderBys ++ l.foldl (fun acc ob =>
        if ob.type = OrderType.ASC then acc ++ [(aliasN ++ "." ++ ob.field, "ASC")]
        else if ob.type = OrderType.DESC then acc ++ [(aliasN ++ "." ++ ob.field, "DESC")]
        else acc) [] }

/-- `value.replaceAll(' ', '')`. -/
def removeSpaces (s : String) : String :=
  ⟨s.data.filter (fun c => decide (c ≠ ' '))⟩

/-- `s.split(',')` of JavaScript: at least one piece, empty pieces kept. -/
def splitCommaAux : List Char → List Char → List String
  | [], acc => [⟨acc.reverse⟩]
  | c :: rest, acc =>
    if c = ',' then ⟨acc.reverse⟩ :: splitCommaAux rest [] else splitCommaAux rest (c :: acc)

/-- `value.replaceAll(' ', '').split(',')` of the in-list operator arm. -/
def splitComma (s : String) : List String :=
  splitCommaAux s.data []

/-- One `switch (operator)` arm of `addWhereOptions`: the clause text, the
placeholder name (alias, separator, field) and the bound value. The default
arm — reached by `=` and by any string outside the cased operators — is the
equality comparison. -/
def compileFilter (aliasN : String) (f : FilterType) : String × String × ParamVal :=
  let placeholder := aliasN ++ ALIAS_STRATEGY ++ f.field
  let sqlField := aliasN ++ "." ++ f.field
  if f.operator = FilterOperator.IN then
    (sqlField ++ " IN (:..." ++ placeholder ++ ")", placeholder,
      .list (splitComma (removeSpaces f.value)))
  else if f.operator = FilterOperator.CONTAINS then
    (sqlField ++ " LIKE :" ++ placeholder, placeholder, .str ("%" ++ f.value ++ "%"))
  else if f.operator = FilterOperator.STARTS_WITH then
    (sqlField ++ " LIKE :" ++ placeholder, placeholder, .str (f.value ++ "%"))
  else if f.operator = FilterOperator.ENDS_WITH then
    (sqlField ++ " LIKE :" ++ placeholder, placeholder, .str ("%" ++ f.value))
  else if f.operator = FilterOperator.LOWER then
    (sqlField ++ " < :" ++ placeholder, placeholder, .str f.value)
  else if f.operator = FilterOperator.LOWER_OR_EQUAL then
    (sqlField ++ " <= :" ++ placeholder, placeholder, .str f.value)
  else if f.operator = FilterOperator.GREATER then
    (sqlField ++ " > :" ++ placeholder, placeholder, .str f.value)
  else if f.operator = FilterOperator.GREATER_OR_EQUAL then
    (sqlField ++ " >= :" ++ placeholder, placeholder, .str f.value)
  else if f.operator = FilterOperator.NOT_EQUAL then
    (sqlField ++ " != :" ++ placeholder, placeholder, .str f.value)
  else
    (sqlField ++ " = :" ++ placeholder, placeholder, .str f.value)

/-- `addWhereOptions`: AND each of this node's filters onto the query. -/
def addWhereOptions (qb : QB) (tree : QueryTree) (aliasN : String) : QB :=
  match tree.clauses.whereF with
  | none => qb
  | some l => { qb with whereClauses := qb.whereClauses ++ l.map (compileFilter aliasN) }

/-- Target metadata of a joined relation: the data-source resolution of the
source's direct `relation.inverseEntityMetadata` object reference (the
fallback entity is never reached on a data source that lists every
referenced table). -/
def inverseMetadata (db : DataSource) (relation : RelationMeta) : EntityMeta :=
  (getMetadata db relation.inverseTableName).getD
    { tableName := relation.inverseTableName, columns := [], relations := [] }

mutual

/-- `buildQueryRecursively`: select this level's fields, attach ordering and
where clauses, then join and recurse into each relation child. -/
def buildQueryRecursively (db : DataSource) (tree : QueryTree) (qb : QB)
    (aliasN : String) (m : EntityMeta) (selections : List String) :
    QB × List String :=
  match tree with
  | .mk n clauses fs =>
    let selections1 := selectEntityQueryFields selections (.mk n clauses fs) aliasN
    let qb1 :=
      addWhereOptions (addOrderByOptions qb (.mk n clauses fs) aliasN) (.mk n clauses fs) aliasN
    buildRelChildren db fs qb1 aliasN m selections1

/-- The loop over `tree.fields.filter(isRelation)`: resolve each relation,
add its join-key columns, issue the left join and recurse; an unresolved
relation is silently skipped. -/
def buildRelChildren (db : DataSource) (fields : List QueryTree) (qb : QB)
    (aliasN : String) (m : EntityMeta) (selections : List String) :
    QB × List String :=
  match fields with
  | [] => (qb, selections)
  | f :: rest =>
    if f.isRelation then
      match m.relations.find? (fun r => r.propertyPath == f.name) with
      | some relation =>
        let relationAlias := aliasN ++ ALIAS_STRATEGY ++ relation.propertyPath
        let selections1 := selectJoinNeccessaryAttributes selections relation aliasN relationAlias
        let qb1 := { qb with
          joins := qb.joins ++ [(aliasN ++ "." ++ relation.propertyPath, relationAlias)] }
        let next := buildQueryRecursively db f qb1 relationAlias (inverseMetadata db relation) selections1
        buildRelChildren db rest next.1 aliasN m next.2
      | none => buildRelChildren db rest qb aliasN m selections
    else buildRelChildren db rest qb aliasN m selections

end

/-- `generateQueryBuilder`: clear the selection, walk the tree from the root
aliasN (the table name), then install the accumulated select list. `none`
models the `getMetadata` throw on an unknown entity. -/
def generateQueryBuilder (db : DataSource) (entityClass : String) (tree : QueryTree) :
    Option QB :=
  match getMetadata db entityClass with
  | none => none
  | some m =>
    let built := buildQueryRecursively db tree {} m.tableName m []
    some { built.1 with selectList := built.2 }

/-- One dispatch to the execution resource: the generated builder state, the
pagination applied to it, and which fetch was issued. -/
structure ExecCall where
  qb : QB
  skip : Option Nat
  take : Option Nat
  mode : String
deriving DecidableEq

/-- JavaScript falsiness of the optional numeric pagination arguments:
absent or zero. -/
def optFalsy : Option Nat → Bool
  | none => true
  | some n => n == 0

/-- `DynamicRepository.find`: build the tree, generate the builder state and
dispatch one `getMany` fetch. `executor` abstracts the execution resource
(rows and a total, of which `getMany` reads the rows); the returned list
records every dispatch of the call. -/
def DynamicRepository.find {T : Type} (db : DataSource) (executor : ExecCall → List T × Nat)
    (fuel : Nat) (entityClass : String) (queryOptions : CommonQueryOptions)
    (findOptions : CommonFindOptions) (skip take : Option Nat) :
    Except BuildErr (List T × List ExecCall) :=
  match createTree db fuel entityClass queryOptions findOptions with
  | .error e => .error e
  | .ok (query, _) =>
    match generateQueryBuilder db entityClass query with
    | none => .error (.metadataNotFound entityClass)
    | some qb =>
      let call : ExecCall := { qb := qb, skip := skip, take := take, mode := "getMany" }
      .ok ((executor call).1, [call])

/-- `DynamicRepository.findAndCount`: with falsy pagination, delegate to
`find` with the same arguments and count the in-memory result; otherwise
dispatch one `getManyAndCount` fetch. -/
def DynamicRepository.findAndCount {T : Type} (db : DataSource)
    (executor : ExecCall → List T × Nat) (fuel : Nat) (entityClass : String)
    (queryOptions : CommonQueryOptions) (findOptions : CommonFindOptions)
    (skip take : Option Nat) :
    Except BuildErr ((List T × Nat) × List ExecCall) :=
  if optFalsy skip && optFalsy take then
    match DynamicRepository.find db executor fuel entityClass queryOptions findOptions skip take with
    | .error e => .error e
    | .ok (rows, calls) => .ok ((rows, rows.length), calls)
  else
    match createTree db fuel entityClass queryOptions findOptions with
    | .error e => .error e
    | .ok (query, _) =>
      match generateQueryBuilder db entityClass query with
      | none => .error (.metadataNotFound entityClass)
      | some qb =>
        let call : ExecCall := { qb := qb, skip := skip, take := take, mode := "getManyAndCount" }
        .ok (executor call, [call])

/-- A selection entry the explicit branch rejects: a dotted entry whose
relation prefix is unknown, or a bare entry that is neither a relation nor a
table field. -/
def selOffender (tableFields relNames : List String) (f : String) : Prop :=
  match splitHead f with
  | some (r, _) => r ∉ relNames
  | none => f ∉ relNames ∧ f ∉ tableFields

/-- A where / ordering entry the routers reject: a dotted entry whose
relation prefix is unknown, or a bare entry that is not a table field. -/
def clauseOffender (tableFields relNames : List String) (f : String) : Prop :=
  match splitHead f with
  | some (r, _) => r ∉ relNames
  | none => f ∉ tableFields

/-- The exception message an offending entry produces: the unknown-relation
message for its relation prefix, or the unknown-field message for the bare
field. -/
def routeErrMsg (tableName f : String) : String :=
  match splitHead f with
  | some (r, _) => relationMsg r tableName
  | none => fieldMsg f tableName

/-- The name an offending entry's message cites: the relation prefix of a
dotted entry, or the bare field itself. -/
def offenderName (f : String) : String :=
  match splitHead f with
  | some (r, _) => r
  | none => f

/-- A selection entry that the explicit branch pushes onto this level's
table selections: dotless, not a relation name, and an existing table
field. -/
def isTableFieldEntry (tableFields relNames : List String) (f : String) : Bool :=
  (splitHead f).isNone && decide (f ∉ relNames) && decide (f ∈ tableFields)

mutual

/-- The (parent alias, relation descriptor) pairs `buildQueryRecursively`
resolves and joins below this node, in emission order: the same traversal
and the same `find?` resolution as `buildRelChildren`, recording the
descriptor of each join it issues. -/
def resolvedJoins (db : DataSource) (tree : QueryTree) (aliasN : String)
    (m : EntityMeta) : List (String × RelationMeta) :=
  match tree with
  | .mk _ _ fs => resolvedJoinsChildren db fs aliasN m

/-- The loop of `resolvedJoins` over the node's children: each relation child
that `find?` resolves contributes its (alias, descriptor) pair followed by
the pairs of its subtree; unresolved and non-relation children contribute
nothing. -/
def resolvedJoinsChildren (db : DataSource) (fields : List QueryTree)
    (aliasN : String) (m : EntityMeta) : List (String × RelationMeta) :=
  match fields with
  | [] => []
  | f :: rest =>
    if f.isRelation then
      match m.relations.find? (fun r => r.propertyPath == f.name) with
      | some relation =>
        (aliasN, relation) ::
          (resolvedJoins db f (aliasN ++ ALIAS_STRATEGY ++ relation.propertyPath)
              (inverseMetadata db relation) ++
            resolvedJoinsChildren db rest aliasN m)
      | none => resolvedJoinsChildren db rest aliasN m
    else resolvedJoinsChildren db rest aliasN m

end

/-- The join the emitter issues for a resolved relation: the relation's
property path qualified by the parent alias, aliased under the `__`
strategy. -/
def joinOf (p : String × RelationMeta) : String × String :=
  (p.1 ++ "." ++ p.2.propertyPath, p.1 ++ ALIAS_STRATEGY ++ p.2.propertyPath)

/-- The alias-qualified join-key columns of a resolved relation: its join
columns under the parent alias, its inverse-join columns under the child
alias and, when an inverse relation descriptor is present, the latter's join
columns under the child alias and its inverse-join columns under the parent
alias. -/
def joinKeyColumns (p : String × RelationMeta) : List String :=
  p.2.joinColumns.map (fun c => p.1 ++ "." ++ c) ++
  p.2.inverseJoinColumns.map
    (fun c => p.1 ++ ALIAS_STRATEGY ++ p.2.propertyPath ++ "." ++ c) ++
  (match p.2.inverseRelation with
   | none => []
   | some ir =>
     ir.joinColumns.map
       (fun c => p.1 ++ ALIAS_STRATEGY ++ p.2.propertyPath ++ "." ++ c) ++
     ir.inverseJoinColumns.map (fun c => p.1 ++ "." ++ c))

/-- Schema with one entity `e` and no relations. -/
def dbOne : DataSource :=
  [("e", { tableName := "e", columns := ["id", "name"], relations := [] })]

/-- Schema where `a` has the non-eager relation `r` to `b`. -/
def dbFilterRel : DataSource :=
  [("a", { tableName := "a", columns := ["id"],
           relations := [{ propertyPath := "r", inverseTableName := "b", isEager := false,
                           joinColumns := [], inverseJoinColumns := [],
                           inverseRelation := none }] }),
   ("b", { tableName := "b", columns := ["x"], relations := [] })]

/-- Cyclic schema: `a` and `b` each hold an eager relation to the other. -/
def dbCycle : DataSource :=
  [("a", { tableName := "a", columns := ["ida"],
           relations := [{ propertyPath := "b", inverseTableName := "b", isEager := true,
                           joinColumns := [], inverseJoinColumns := [],
                           inverseRelation := none }] }),
   ("b", { tableName := "b", columns := ["idb"],
           relations := [{ propertyPath := "a", inverseTableName := "a", isEager := true,
                           joinColumns := [], inverseJoinColumns := [],
                           inverseRelation := none }] })]

/-- An eager relation with no join columns, for the acyclic diamond schema. -/
def relTo (p tbl : String) : RelationMeta :=
  { propertyPath := p, inverseTableName := tbl, isEager := true,
    joinColumns := [], inverseJoinColumns := [], inverseRelation := none }

/-- Acyclic diamond schema: `a` relates to `b` and `c`, which both relate to
`d`. -/
def dbDiamond : DataSource :=
  [("a", { tableName := "a", columns := ["ida"], relations := [relTo "b" "b", relTo "c" "c"] }),
   ("b", { tableName := "b", columns := ["idb"], relations := [relTo "d" "d"] }),
   ("c", { tableName := "c", columns := ["idc"], relations := [relTo "d" "d"] }),
   ("d", { tableName := "d", columns := ["idd"], relations := [] })]

/-- Schema with join columns on both sides and an inverse relation
descriptor: `o` holds the eager relation `arts` to `art`. -/
def dbJoin : DataSource :=
  [("o", { tableName := "o", columns := ["ido", "aid"],
           relations := [{ propertyPath := "arts", inverseTableName := "art", isEager := true,
                           joinColumns := ["aid"], inverseJoinColumns := ["ida"],
                           inverseRelation := some { joinColumns := ["oid"],
                                                     inverseJoinColumns := ["ido"] } }] }),
   ("art", { tableName := "art", columns := ["ida", "price", "oid"], relations := [] })]

/-- The `o` entity metadata of `dbJoin`. -/
def mJO : EntityMeta :=
  { tableName := "o", columns := ["ido", "aid"],
    relations := [{ propertyPath := "arts", inverseTableName := "art", isEager := true,
                    joinColumns := ["aid"], inverseJoinColumns := ["ida"],
                    inverseRelation := some { joinColumns := ["oid"],
                                              inverseJoinColumns := ["ido"] } }] }

/-- A query tree on `dbJoin`: root `o` with the relation child `arts`
selecting `price`. -/
def trJO : QueryTree := .mk "o" {} [.mk "arts" {} [.mk "price" {} []]]

/-- The builder `generateQueryBuilder` produces for `trJO` on `dbJoin`. -/
def qbJO : QB :=
  { whereClauses := [], orderBys := [], joins := [("o.arts", "o__arts")],
    selectList := ["o.aid", "o__arts.ida", "o__arts.oid", "o.ido", "o__arts.price"] }

/-- C8: for every predicate compiled at a node with alias `a` and field `f`,
the emitter uses the placeholder name `a ++ "__" ++ f` and ANDs the compiled
clause onto the query's accumulated where clauses; the in-list operator
splits the value on commas after stripping spaces and binds the resulting
list, contains / starts-with / ends-with bind the pattern with `%` wrapped
around / after / before the literal value, and the `<`, `<=`, `>`, `>=`,
`!=`, `=` operators bind the literal value with the corresponding
comparison. -/
theorem addWhereOptions_operator_semantics (a f v : String) (qb : QB) (tree : QueryTree)
    (l : List FilterType) (h : tree.clauses.whereF = some l) :
    (addWhereOptions qb tree a).whereClauses = qb.whereClauses ++ l.map (compileFilter a) ∧
    compileFilter a ⟨f, FilterOperator.IN, v⟩ =
      (a ++ "." ++ f ++ " IN (:..." ++ (a ++ ALIAS_STRATEGY ++ f) ++ ")",
        a ++ ALIAS_STRATEGY ++ f, ParamVal.list (splitComma (removeSpaces v))) ∧
    compileFilter a ⟨f, FilterOperator.CONTAINS, v⟩ =
      (a ++ "." ++ f ++ " LIKE :" ++ (a ++ ALIAS_STRATEGY ++ f),
        a ++ ALIAS_STRATEGY ++ f, ParamVal.str ("%" ++ v ++ "%")) ∧
    compileFilter a ⟨f, FilterOperator.STARTS_WITH, v⟩ =
      (a ++ "." ++ f ++ " LIKE :" ++ (a ++ ALIAS_STRATEGY ++ f),
        a ++ ALIAS_STRATEGY ++ f, ParamVal.str (v ++ "%")) ∧
    compileFilter a ⟨f, FilterOperator.ENDS_WITH, v⟩ =
      (a ++ "." ++ f ++ " LIKE :" ++ (a ++ ALIAS_STRATEGY ++ f),
        a ++ ALIAS_STRATEGY ++ f, ParamVal.str ("%" ++ v)) ∧
    compileFilter a ⟨f, FilterOperator.LOWER, v⟩ =
      (a ++ "." ++ f ++ " < :" ++ (a ++ ALIAS_STRATEGY ++ f),
        a ++ ALIAS_STRATEGY ++ f, ParamVal.str v) ∧
    compileFilter a ⟨f, FilterOperator.LOWER_OR_EQUAL, v⟩ =
      (a ++ "." ++ f ++ " <= :" ++ (a ++ ALIAS_STRATEGY ++ f),
        a ++ ALIAS_STRATEGY ++ f, ParamVal.str v) ∧
    compileFilter a ⟨f, FilterOperator.GREATER, v⟩ =
      (a ++ "." ++ f ++ " > :" ++ (a ++ ALIAS_STRATEGY ++ f),
        a ++ ALIAS_STRATEGY ++ f, ParamVal.str v) ∧
    compileFilter a ⟨f, FilterOperator.GREATER_OR_EQUAL, v⟩ =
      (a ++ "." ++ f ++ " >= :" ++ (a ++ ALIAS_STRATEGY ++ f),
        a ++ ALIAS_STRATEGY ++ f, ParamVal.str v) ∧
    compileFilter a ⟨f, FilterOperator.NOT_EQUAL, v⟩ =
      (a ++ "." ++ f ++ " != :" ++ (a ++ ALIAS_STRATEGY ++ f),
        a ++ ALIAS_STRATEGY ++ f, ParamVal.str v) ∧
    compileFilter a ⟨f, FilterOperator.EQUAL, v⟩ =
      (a ++ "." ++ f ++ " = :" ++ (a ++ ALIAS_STRATEGY ++ f),
        a ++ ALIAS_STRATEGY ++ f, ParamVal.str v) := by
  refine ⟨?_, rfl, rfl, rfl, rfl, rfl, rfl, rfl, rfl, rfl, rfl⟩
  simp [addWhereOptions, h]

/-- Witness for C8: a greater-than predicate at alias `o`, compiled onto an
empty builder. -/
theorem addWhereOptions_operator_semantics_witness :
    (QueryTree.mk "o" ⟨some [⟨"price", FilterOperator.GREATER, "10"⟩], none⟩ []).clauses.whereF =
      some [⟨"price", FilterOperator.GREATER, "10"⟩] ∧
    (addWhereOptions {} (QueryTree.mk "o" ⟨some [⟨"price", FilterOperator.GREATER, "10"⟩], none⟩ [])
        "o").whereClauses =
      [("o.price > :o__price", "o__price", ParamVal.str "10")] := by
  refine ⟨rfl, ?_⟩
  exact ((addWhereOptions_operator_semantics "o" "price" "10" {}
    (QueryTree.mk "o" ⟨some [⟨"price", FilterOperator.GREATER, "10"⟩], none⟩ [])
    [⟨"price", FilterOperator.GREATER, "10"⟩] rfl).1).trans rfl

/-- C10: a predicate whose operator is not one of the nine cased strings —
the declared `=` operator among them — compiles to the alias-scoped equality
comparison binding the literal value; no error is raised. -/
theorem compileFilter_unmatched_operator_defaults_to_equality (op : String)
    (hop : op ∉ [FilterOperator.IN, FilterOperator.CONTAINS, FilterOperator.STARTS_WITH,
      FilterOperator.ENDS_WITH, FilterOperator.LOWER, FilterOperator.LOWER_OR_EQUAL,
      FilterOperator.GREATER, FilterOperator.GREATER_OR_EQUAL, FilterOperator.NOT_EQUAL])
    (a f v : String) :
    compileFilter a ⟨f, op, v⟩ =
      (a ++ "." ++ f ++ " = :" ++ (a ++ ALIAS_STRATEGY ++ f), a ++ ALIAS_STRATEGY ++ f,
        ParamVal.str v) := by
  simp only [List.mem_cons, List.not_mem_nil, or_false, not_or] at hop
  obtain ⟨h1, h2, h3, h4, h5, h6, h7, h8, h9⟩ := hop
  simp [compileFilter, h1, h2, h3, h4, h5, h6, h7, h8, h9]

/-- Witness for C10: the `=` operator itself falls through to the default
equality arm. -/
theorem compileFilter_unmatched_operator_witness :
    FilterOperator.EQUAL ∉ [FilterOperator.IN, FilterOperator.CONTAINS,
      FilterOperator.STARTS_WITH, FilterOperator.ENDS_WITH, FilterOperator.LOWER,
      FilterOperator.LOWER_OR_EQUAL, FilterOperator.GREATER, FilterOperator.GREATER_OR_EQUAL,
      FilterOperator.NOT_EQUAL] ∧
    compileFilter "o" ⟨"id", FilterOperator.EQUAL, "5"⟩ =
      ("o.id = :o__id", "o__id", ParamVal.str "5") :=
  ⟨by decide,
    (compileFilter_unmatched_operator_defaults_to_equality FilterOperator.EQUAL (by decide)
      "o" "id" "5").trans rfl⟩

/-- C7: `findAndCount` with both pagination arguments absent returns the
rows of `find` with identical arguments paired with their in-memory count,
propagates `find`'s errors unchanged, and `find` itself dispatches exactly
one fetch to the execution resource. -/
theorem findAndCount_no_pagination {T : Type} (db : DataSource)
    (executor : ExecCall → List T × Nat) (fuel : Nat) (entityClass : String)
    (qo : CommonQueryOptions) (fo : CommonFindOptions) :
    (∀ rows calls,
      DynamicRepository.find db executor fuel entityClass qo fo none none = .ok (rows, calls) →
      DynamicRepository.findAndCount db executor fuel entityClass qo fo none none =
        .ok ((rows, rows.length), calls) ∧ calls.length = 1) ∧
    (∀ e, DynamicRepository.find db executor fuel entityClass qo fo none none = .error e →
      DynamicRepository.findAndCount db executor fuel entityClass qo fo none none = .error e) := by
  constructor
  · intro rows calls h
    refine ⟨by simp [DynamicRepository.findAndCount, optFalsy, h], ?_⟩
    simp only [DynamicRepository.find] at h
    split at h
    · exact absurd h (by simp)
    · split at h
      · exact absurd h (by simp)
      · simp only [Except.ok.injEq, Prod.mk.injEq] at h
        rw [← h.2]
        rfl
  · intro e h
    simp [DynamicRepository.findAndCount, optFalsy, h]

/-- Witness for C7: on a one-entity schema, the unpaginated `findAndCount`
returns `find`'s two rows with count two through the single recorded
dispatch. -/
theorem findAndCount_no_pagination_witness :
    DynamicRepository.findAndCount dbOne (fun _ => (([(), ()] : List Unit), 5)) 3 "e" {} {}
        none none =
      .ok (([(), ()], 2),
        [{ qb := { selectList := ["e.id", "e.name"] }, skip := none, take := none,
           mode := "getMany" }]) ∧
    [({ qb := { selectList := ["e.id", "e.name"] }, skip := none, take := none,
        mode := "getMany" } : ExecCall)].length = 1 :=
  (findAndCount_no_pagination dbOne (fun _ => (([(), ()] : List Unit), 5)) 3 "e" {} {}).1
    [(), ()]
    [{ qb := { selectList := ["e.id", "e.name"] }, skip := none, take := none,
       mode := "getMany" }] rfl

/-- Counterexample to C1: on `dbFilterRel` the where entry `r.x` routes the
filter to relation `r` (third conjunct), yet with explicit selections
`["id"]` the built node has no subtree named `r` — the relation accumulated
only by filter routing yields no child, and its filter is dropped (the node
keeps the empty this-level filter list `some []`). -/
theorem filter_routed_relation_yields_no_subtree :
    buildQueryTree dbFilterRel 10 "a" "a" {}
        { selections := some ["id"], whereF := some [⟨"r.x", FilterOperator.EQUAL, "5"⟩] } [] =
      .ok (.mk "a" ⟨some [], none⟩ [.mk "id" {} []], ["a"]) ∧
    routeWhere "a" ["id"] ["r"] (some [⟨"r.x", FilterOperator.EQUAL, "5"⟩]) ["id"] =
      .ok (["id"], some [], [("r", [⟨"x", FilterOperator.EQUAL, "5"⟩])]) ∧
    (∀ c ∈ (QueryTree.mk "a" ⟨some [], none⟩ [QueryTree.mk "id" {} []]).fields,
      c.name ≠ "r") :=
  ⟨rfl, rfl, by decide⟩

/-- Counterexample to C2: on `dbCycle`, the explicit selections
`["b", "b.a"]` re-enter entity `a` on the path `a → b → a` although `a` is
already explored and `allowRecursively` is empty — the cycle rule does not
apply to explicitly selected relations. The second conjunct is the inner
recursive call itself: target table `a`, explored `["a", "b"]`, and a
subtree is still built. -/
theorem explicit_selection_bypasses_cycle_rule :
    buildQueryTree dbCycle 10 "a" "a" {} { selections := some ["b", "b.a"] } [] =
      .ok (.mk "a" {} [.mk "b" {} [.mk "a" {} [.mk "ida" {} []]]], ["a", "b", "a"]) ∧
    buildQueryTree dbCycle 8 "a" "a" {} { selections := some [] } ["a", "b"] =
      .ok (.mk "a" {} [.mk "ida" {} []], ["a", "b", "a"]) ∧
    (QueryTree.mk "a" {} [QueryTree.mk "ida" {} []]).isRelation = true :=
  ⟨rfl, rfl, rfl⟩

/-- C3: on the acyclic diamond `dbDiamond` built in default-selection mode,
the `b` branch explores `d` first and the shared explored list then
suppresses the `d` subtree on the sibling `c` branch (no `d`-named child
under `c`), although no cyclic dependency exists; listing `d` in
`allowRecursively` restores the `c → d` subtree. -/
theorem shared_explored_list_suppresses_sibling_branch :
    buildQueryTree dbDiamond 10 "a" "a" {} {} [] =
      .ok (.mk "a" {} [.mk "ida" {} [],
        .mk "b" {} [.mk "idb" {} [], .mk "d" {} [.mk "idd" {} []]],
        .mk "c" {} [.mk "idc" {} []]], ["a", "b", "d", "c"]) ∧
    buildQueryTree dbDiamond 10 "a" "a" { allowRecursively := ["d"] } {} [] =
      .ok (.mk "a" {} [.mk "ida" {} [],
        .mk "b" {} [.mk "idb" {} [], .mk "d" {} [.mk "idd" {} []]],
        .mk "c" {} [.mk "idc" {} [], .mk "d" {} [.mk "idd" {} []]]],
        ["a", "b", "d", "c", "d"]) ∧
    (∀ c ∈ (QueryTree.mk "c" {} [QueryTree.mk "idc" {} []]).fields, c.name ≠ "d") :=
  ⟨rfl, rfl, by decide⟩

/-- Counterexample to C4: on entity `e` with columns `id`, `name`, the
selection list `["name", "name", "*"]` contains `*` yet produces the
table-level selection `["name", "name", "id"]`, which repeats `name` — the
wildcard branch deduplicates only its own expansion, not the explicit
entries. -/
theorem wildcard_selection_duplicate_explicit_field :
    buildQueryTree dbOne 10 "e" "e" {} { selections := some ["name", "name", "*"] } [] =
      .ok (.mk "e" {} [.mk "name" {} [], .mk "name" {} [], .mk "id" {} []], ["e"]) ∧
    ((QueryTree.mk "e" {} [QueryTree.mk "name" {} [], QueryTree.mk "name" {} [],
        QueryTree.mk "id" {} []]).fields.map QueryTree.name) = ["name", "name", "id"] ∧
    ¬ (["name", "name", "id"] : List String).Nodup :=
  ⟨rfl, rfl, by decide⟩

theorem routeWhereList_mono (tn : String) (tfs rns : List String) :
    ∀ (l : List FilterType) (ts tf rf ts' tf' rf'),
      routeWhereList tn tfs rns l ts tf rf = .ok (ts', tf', rf') →
      ∀ x, x ∈ ts → x ∈ ts' := by
  intro l
  induction l with
  | nil =>
    intro ts tf rf ts' tf' rf' h x hx
    simp only [routeWhereList, Except.ok.injEq, Prod.mk.injEq] at h
    exact h.1 ▸ hx
  | cons filter rest ih =>
    intro ts tf rf ts' tf' rf' h x hx
    simp only [routeWhereList] at h
    split at h
    · split at h
      · exact ih _ _ _ _ _ _ h x hx
      · simp at h
    · split at h
      · refine ih _ _ _ _ _ _ h x ?_
        split
        · exact hx
        · exact List.mem_append_left _ hx
      · simp at h

theorem routeWhereList_adds (tn : String) (tfs rns : List String) :
    ∀ (l : List FilterType) (ts tf rf ts' tf' rf'),
      routeWhereList tn tfs rns l ts tf rf = .ok (ts', tf', rf') →
      ∀ filt ∈ l, splitHead filt.field = none → filt.field ∈ ts' := by
  intro l
  induction l with
  | nil => intro ts tf rf ts' tf' rf' _ filt hmem; simp at hmem
  | cons filter rest ih =>
    intro ts tf rf ts' tf' rf' h filt hmem hsp
    rcases List.mem_cons.mp hmem with heq | hrest
    · subst heq
      simp only [routeWhereList] at h
      split at h
      · next heq2 => rw [hsp] at heq2; cases heq2
      · split at h
        · refine routeWhereList_mono tn tfs rns _ _ _ _ _ _ _ h _ ?_
          split
          · next hin => exact hin
          · exact List.mem_append_right _ (by simp)
        · simp at h
    · simp only [routeWhereList] at h
      split at h
      · split at h
        · exact ih _ _ _ _ _ _ h filt hrest hsp
        · simp at h
      · split at h
        · exact ih _ _ _ _ _ _ h filt hrest hsp
        · simp at h

theorem routeWhereList_sub (tn : String) (tfs rns : List String) :
    ∀ (l : List FilterType) (ts tf rf ts' tf' rf'),
      routeWhereList tn tfs rns l ts tf rf = .ok (ts', tf', rf') →
      ∀ x ∈ ts', x ∈ ts ∨ x ∈ tfs := by
  intro l
  induction l with
  | nil =>
    intro ts tf rf ts' tf' rf' h x hx
    simp only [routeWhereList, Except.ok.injEq, Prod.mk.injEq] at h
    exact .inl (h.1 ▸ hx)
  | cons filter rest ih =>
    intro ts tf rf ts' tf' rf' h x hx
    simp only [routeWhereList] at h
    split at h
    · split at h
      · exact ih _ _ _ _ _ _ h x hx
      · simp at h
    · split at h
      · next hin =>
        rcases ih _ _ _ _ _ _ h x hx with hx' | hx'
        · revert hx'
          split
          · exact fun hx' => .inl hx'
          · intro hx'
            rcases List.mem_append.mp hx' with hx'' | hx''
            · exact .inl hx''
            · simp only [List.mem_singleton] at hx''
              exact .inr (hx'' ▸ hin)
        · exact .inr hx'
      · simp at h

theorem routeWhereList_err (tn : String) (tfs rns : List String) :
    ∀ (l : List FilterType),
      (∃ filt ∈ l, clauseOffender tfs rns filt.field) →
      ∃ f, clauseOffender tfs rns f ∧ (∃ filt ∈ l, filt.field = f) ∧
        ∀ ts tf rf, routeWhereList tn tfs rns l ts tf rf =
          .error (.invalidArgument (routeErrMsg tn f)) := by
  intro l
  induction l with
  | nil => intro h; simp at h
  | cons filter rest ih =>
    intro h
    by_cases hoff : clauseOffender tfs rns filter.field
    · refine ⟨filter.field, hoff, ⟨filter, by simp, rfl⟩, ?_⟩
      intro ts tf rf
      simp only [routeWhereList]
      unfold clauseOffender at hoff
      unfold routeErrMsg
      split at hoff
      · rw [if_neg hoff]
      · rw [if_neg hoff]
    · have hrest : ∃ filt ∈ rest, clauseOffender tfs rns filt.field := by
        rcases h with ⟨filt, hmem, hfoff⟩
        rcases List.mem_cons.mp hmem with hfe | hfr
        · exact absurd (hfe ▸ hfoff) hoff
        · exact ⟨filt, hfr, hfoff⟩
      rcases ih hrest with ⟨f', h1', ⟨filt', h2', h3'⟩, h4'⟩
      refine ⟨f', h1', ⟨filt', by simp [h2'], h3'⟩, ?_⟩
      intro ts tf rf
      unfold clauseOffender at hoff
      cases hsp : splitHead filter.field with
      | some p =>
        obtain ⟨r, s⟩ := p
        rw [hsp] at hoff
        simp only [not_not] at hoff
        simp only [routeWhereList, hsp]
        rw [if_pos hoff]
        exact h4' _ _ _
      | none =>
        rw [hsp] at hoff
        simp only [not_not] at hoff
        simp only [routeWhereList, hsp]
        rw [if_pos hoff]
        exact h4' _ _ _

theorem routeWhereList_ok (tn : String) (tfs rns : List String) :
    ∀ (l : List FilterType) (ts tf rf),
      (∀ filt ∈ l, ¬clauseOffender tfs rns filt.field) →
      ∃ out, routeWhereList tn tfs rns l ts tf rf = .ok out := by
  intro l
  induction l with
  | nil => intro ts tf rf _; exact ⟨(ts, tf, rf), rfl⟩
  | cons filter rest ih =>
    intro ts tf rf h
    have hoff := h filter (by simp)
    unfold clauseOffender at hoff
    have hrest : ∀ filt ∈ rest, ¬clauseOffender tfs rns filt.field :=
      fun filt hm => h filt (List.mem_cons_of_mem _ hm)
    cases hsp : splitHead filter.field with
    | some p =>
      obtain ⟨r, s⟩ := p
      rw [hsp] at hoff
      simp only [not_not] at hoff
      simp only [routeWhereList, hsp]
      rw [if_pos hoff]
      exact ih _ _ _ hrest
    | none =>
      rw [hsp] at hoff
      simp only [not_not] at hoff
      simp only [routeWhereList, hsp]
      rw [if_pos hoff]
      exact ih _ _ _ hrest

theorem routeOrderList_mono (tn : String) (tfs rns : List String) :
    ∀ (l : List OrderingBy) (ts tord ro ts' tord' ro'),
      routeOrderList tn tfs rns l ts tord ro = .ok (ts', tord', ro') →
      ∀ x, x ∈ ts → x ∈ ts' := by
  intro l
  induction l with
  | nil =>
    intro ts tord ro ts' tord' ro' h x hx
    simp only [routeOrderList, Except.ok.injEq, Prod.mk.injEq] at h
    exact h.1 ▸ hx
  | cons orderBy rest ih =>
    intro ts tord ro ts' tord' ro' h x hx
    simp only [routeOrderList] at h
    split at h
    · split at h
      · exact ih _ _ _ _ _ _ h x hx
      · simp at h
    · split at h
      · refine ih _ _ _ _ _ _ h x ?_
        split
        · exact hx
        · exact List.mem_append_left _ hx
      · simp at h

theorem routeOrderList_adds (tn : String) (tfs rns : List String) :
    ∀ (l : List OrderingBy) (ts tord ro ts' tord' ro'),
      routeOrderList tn tfs rns l ts tord ro = .ok (ts', tord', ro') →
      ∀ ob ∈ l, splitHead ob.field = none → ob.field ∈ ts' := by
  intro l
  induction l with
  | nil => intro ts tord ro ts' tord' ro' _ ob hmem; simp at hmem
  | cons orderBy rest ih =>
    intro ts tord ro ts' tord' ro' h ob hmem hsp
    rcases List.mem_cons.mp hmem with heq | hrest
    · subst heq
      simp only [routeOrderList] at h
      split at h
      · next heq2 => rw [hsp] at heq2; cases heq2
      · split at h
        · refine routeOrderList_mono tn tfs rns _ _ _ _ _ _ _ h _ ?_
          split
          · next hin => exact hin
          · exact List.mem_append_right _ (by simp)
        · simp at h
    · simp only [routeOrderList] at h
      split at h
      · split at h
        · exact ih _ _ _ _ _ _ h ob hrest hsp
        · simp at h
      · split at h
        · exact ih _ _ _ _ _ _ h ob hrest hsp
        · simp at h

theorem routeOrderList_sub (tn : String) (tfs rns : List String) :
    ∀ (l : List OrderingBy) (ts tord ro ts' tord' ro'),
      routeOrderList tn tfs rns l ts tord ro = .ok (ts', tord', ro') →
      ∀ x ∈ ts', x ∈ ts ∨ x ∈ tfs := by
  intro l
  induction l with
  | nil =>
    intro ts tord ro ts' tord' ro' h x hx
    simp only [routeOrderList, Except.ok.injEq, Prod.mk.injEq] at h
    exact .inl (h.1 ▸ hx)
  | cons orderBy rest ih =>
    intro ts tord ro ts' tord' ro' h x hx
    simp only [routeOrderList] at h
    split at h
    · split at h
      · exact ih _ _ _ _ _ _ h x hx
      · simp at h
    · split at h
      · next hin =>
        rcases ih _ _ _ _ _ _ h x hx with hx' | hx'
        · revert hx'
          split
          · exact fun hx' => .inl hx'
          · intro hx'
            rcases List.mem_append.mp hx' with hx'' | hx''
            · exact .inl hx''
            · simp only [List.mem_singleton] at hx''
              exact .inr (hx'' ▸ hin)
        · exact .inr hx'
      · simp at h

theorem routeOrderList_err (tn : String) (tfs rns : List String) :
    ∀ (l : List OrderingBy),
      (∃ ob ∈ l, clauseOffender tfs rns ob.field) →
      ∃ f, clauseOffender tfs rns f ∧ (∃ ob ∈ l, ob.field = f) ∧
        ∀ ts tord ro, routeOrderList tn tfs rns l ts tord ro =
          .error (.invalidArgument (routeErrMsg tn f)) := by
  intro l
  induction l with
  | nil => intro h; simp at h
  | cons orderBy rest ih =>
    intro h
    by_cases hoff : clauseOffender tfs rns orderBy.field
    · refine ⟨orderBy.field, hoff, ⟨orderBy, by simp, rfl⟩, ?_⟩
      intro ts tord ro
      simp only [routeOrderList]
      unfold clauseOffender at hoff
      unfold routeErrMsg
      split at hoff
      · rw [if_neg hoff]
      · rw [if_neg hoff]
    · have hrest : ∃ ob ∈ rest, clauseOffender tfs rns ob.field := by
        rcases h with ⟨ob, hmem, hfoff⟩
        rcases List.mem_cons.mp hmem with hfe | hfr
        · exact absurd (hfe ▸ hfoff) hoff
        · exact ⟨ob, hfr, hfoff⟩
      rcases ih hrest with ⟨f', h1', ⟨ob', h2', h3'⟩, h4'⟩
      refine ⟨f', h1', ⟨ob', by simp [h2'], h3'⟩, ?_⟩
      intro ts tord ro
      unfold clauseOffender at hoff
      cases hsp : splitHead orderBy.field with
      | some p =>
        obtain ⟨r, s⟩ := p
        rw [hsp] at hoff
        simp only [not_not] at hoff
        simp only [routeOrderList, hsp]
        rw [if_pos hoff]
        exact h4' _ _ _
      | none =>
        rw [hsp] at hoff
        simp only [not_not] at hoff
        simp only [routeOrderList, hsp]
        rw [if_pos hoff]
        exact h4' _ _ _

theorem routeOrderList_ok (tn : String) (tfs rns : List String) :
    ∀ (l : List OrderingBy) (ts tord ro),
      (∀ ob ∈ l, ¬clauseOffender tfs rns ob.field) →
      ∃ out, routeOrderList tn tfs rns l ts tord ro = .ok out := by
  intro l
  induction l with
  | nil => intro ts tord ro _; exact ⟨(ts, tord, ro), rfl⟩
  | cons orderBy rest ih =>
    intro ts tord ro h
    have hoff := h orderBy (by simp)
    unfold clauseOffender at hoff
    have hrest : ∀ ob ∈ rest, ¬clauseOffender tfs rns ob.field :=
      fun ob hm => h ob (List.mem_cons_of_mem _ hm)
    cases hsp : splitHead orderBy.field with
    | some p =>
      obtain ⟨r, s⟩ := p
      rw [hsp] at hoff
      simp only [not_not] at hoff
      simp only [routeOrderList, hsp]
      rw [if_pos hoff]
      exact ih _ _ _ hrest
    | none =>
      rw [hsp] at hoff
      simp only [not_not] at hoff
      simp only [routeOrderList, hsp]
      rw [if_pos hoff]
      exact ih _ _ _ hrest

theorem routeSelList_char (tn : String) (tfs rns : List String) :
    ∀ (l : List String) (ts rs ts' rs'),
      routeSelList tn tfs rns l ts rs = .ok (ts', rs') →
      ts' = ts ++ l.filter (isTableFieldEntry tfs rns) := by
  intro l
  induction l with
  | nil =>
    intro ts rs ts' rs' h
    simp only [routeSelList, Except.ok.injEq, Prod.mk.injEq] at h
    simp [← h.1]
  | cons field rest ih =>
    intro ts rs ts' rs' h
    cases hsp : splitHead field with
    | some p =>
      obtain ⟨r, s⟩ := p
      simp only [routeSelList, hsp] at h
      split at h
      · have := ih _ _ _ _ h
        rw [this, List.filter_cons]
        simp [isTableFieldEntry, hsp]
      · simp at h
    | none =>
      simp only [routeSelList, hsp] at h
      split at h
      · next hrel =>
        have := ih _ _ _ _ h
        rw [this, List.filter_cons]
        simp [isTableFieldEntry, hrel]
      · split at h
        · next hrel hfld =>
          have := ih _ _ _ _ h
          rw [this, List.filter_cons]
          simp [isTableFieldEntry, hsp, hrel, hfld]
        · simp at h

theorem routeSelList_err (tn : String) (tfs rns : List String) :
    ∀ (l : List String),
      (∃ f ∈ l, selOffender tfs rns f) →
      ∃ f, selOffender tfs rns f ∧ f ∈ l ∧
        ∀ ts rs, routeSelList tn tfs rns l ts rs =
          .error (.invalidArgument (routeErrMsg tn f)) := by
  intro l
  induction l with
  | nil => intro h; simp at h
  | cons field rest ih =>
    intro h
    by_cases hoff : selOffender tfs rns field
    · refine ⟨field, hoff, by simp, ?_⟩
      intro ts rs
      simp only [routeSelList]
      unfold selOffender at hoff
      unfold routeErrMsg
      split at hoff
      · rw [if_neg hoff]
      · rw [if_neg hoff.1, if_neg hoff.2]
    · have hrest : ∃ f ∈ rest, selOffender tfs rns f := by
        rcases h with ⟨f, hmem, hfoff⟩
        rcases List.mem_cons.mp hmem with hfe | hfr
        · exact absurd (hfe ▸ hfoff) hoff
        · exact ⟨f, hfr, hfoff⟩
      rcases ih hrest with ⟨f', h1', h2', h3'⟩
      refine ⟨f', h1', by simp [h2'], ?_⟩
      intro ts rs
      unfold selOffender at hoff
      cases hsp : splitHead field with
      | some p =>
        obtain ⟨r, s⟩ := p
        rw [hsp] at hoff
        simp only [not_not] at hoff
        simp only [routeSelList, hsp]
        rw [if_pos hoff]
        exact h3' _ _
      | none =>
        rw [hsp] at hoff
        simp only [routeSelList, hsp]
        by_cases hrel : field ∈ rns
        · rw [if_pos hrel]
          exact h3' _ _
        · have hfld : field ∈ tfs := by
            rcases not_and_or.mp hoff with hc | hc
            · exact absurd hrel (by simpa using hc)
            · simpa using hc
          rw [if_neg hrel, if_pos hfld]
          exact h3' _ _

theorem routeSelList_ok (tn : String) (tfs rns : List String) :
    ∀ (l : List String) (ts rs),
      (∀ f ∈ l, ¬selOffender tfs rns f) →
      ∃ out, routeSelList tn tfs rns l ts rs = .ok out := by
  intro l
  induction l with
  | nil => intro ts rs _; exact ⟨(ts, rs), rfl⟩
  | cons field rest ih =>
    intro ts rs h
    have hoff := h field (by simp)
    unfold selOffender at hoff
    have hrest : ∀ f ∈ rest, ¬selOffender tfs rns f :=
      fun f hm => h f (List.mem_cons_of_mem _ hm)
    cases hsp : splitHead field with
    | some p =>
      obtain ⟨r, s⟩ := p
      rw [hsp] at hoff
      simp only [not_not] at hoff
      simp only [routeSelList, hsp]
      rw [if_pos hoff]
      exact ih _ _ hrest
    | none =>
      rw [hsp] at hoff
      simp only [routeSelList, hsp]
      by_cases hrel : field ∈ rns
      · rw [if_pos hrel]
        exact ih _ _ hrest
      · have hfld : field ∈ tfs := by
          rcases not_and_or.mp hoff with hc | hc
          · exact absurd hrel (by simpa using hc)
          · simpa using hc
        rw [if_neg hrel, if_pos hfld]
        exact ih _ _ hrest

theorem routeWhere_mono {tn : String} {tfs rns : List String} {wf : Option (List FilterType)}
    {ts ts' : List String} {w : Option (List FilterType)}
    {rf : List (String × List FilterType)}
    (h : routeWhere tn tfs rns wf ts = .ok (ts', w, rf)) :
    ∀ x ∈ ts, x ∈ ts' := by
  intro x hx
  cases wf with
  | none =>
    simp only [routeWhere, Except.ok.injEq, Prod.mk.injEq] at h
    exact h.1 ▸ hx
  | some l =>
    simp only [routeWhere] at h
    cases heq : routeWhereList tn tfs rns l ts [] [] with
    | error e => rw [heq] at h; simp at h
    | ok out =>
      obtain ⟨a, b, c⟩ := out
      rw [heq] at h
      simp only [Except.ok.injEq, Prod.mk.injEq] at h
      exact h.1 ▸ routeWhereList_mono tn tfs rns _ _ _ _ _ _ _ heq x hx

theorem routeWhere_adds {tn : String} {tfs rns : List String} {l : List FilterType}
    {ts ts' : List String} {w : Option (List FilterType)}
    {rf : List (String × List FilterType)}
    (h : routeWhere tn tfs rns (some l) ts = .ok (ts', w, rf)) :
    ∀ filt ∈ l, splitHead filt.field = none → filt.field ∈ ts' := by
  intro filt hmem hsp
  simp only [routeWhere] at h
  cases heq : routeWhereList tn tfs rns l ts [] [] with
  | error e => rw [heq] at h; simp at h
  | ok out =>
    obtain ⟨a, b, c⟩ := out
    rw [heq] at h
    simp only [Except.ok.injEq, Prod.mk.injEq] at h
    exact h.1 ▸ routeWhereList_adds tn tfs rns _ _ _ _ _ _ _ heq filt hmem hsp

theorem routeWhere_sub {tn : String} {tfs rns : List String} {wf : Option (List FilterType)}
    {ts ts' : List String} {w : Option (List FilterType)}
    {rf : List (String × List FilterType)}
    (h : routeWhere tn tfs rns wf ts = .ok (ts', w, rf)) :
    ∀ x ∈ ts', x ∈ ts ∨ x ∈ tfs := by
  intro x hx
  cases wf with
  | none =>
    simp only [routeWhere, Except.ok.injEq, Prod.mk.injEq] at h
    exact .inl (h.1 ▸ hx)
  | some l =>
    simp only [routeWhere] at h
    cases heq : routeWhereList tn tfs rns l ts [] [] with
    | error e => rw [heq] at h; simp at h
    | ok out =>
      obtain ⟨a, b, c⟩ := out
      rw [heq] at h
      simp only [Except.ok.injEq, Prod.mk.injEq] at h
      exact routeWhereList_sub tn tfs rns _ _ _ _ _ _ _ heq x (h.1 ▸ hx)

theorem routeOrdering_mono {tn : String} {tfs rns : List String}
    {og : Option (List OrderingBy)} {ts ts' : List String} {o : Option (List OrderingBy)}
    {ro : List (String × List OrderingBy)}
    (h : routeOrdering tn tfs rns og ts = .ok (ts', o, ro)) :
    ∀ x ∈ ts, x ∈ ts' := by
  intro x hx
  cases og with
  | none =>
    simp only [routeOrdering, Except.ok.injEq, Prod.mk.injEq] at h
    exact h.1 ▸ hx
  | some l =>
    simp only [routeOrdering] at h
    cases heq : routeOrderList tn tfs rns l ts [] [] with
    | error e => rw [heq] at h; simp at h
    | ok out =>
      obtain ⟨a, b, c⟩ := out
      rw [heq] at h
      simp only [Except.ok.injEq, Prod.mk.injEq] at h
      exact h.1 ▸ routeOrderList_mono tn tfs rns _ _ _ _ _ _ _ heq x hx

theorem routeOrdering_adds {tn : String} {tfs rns : List String} {l : List OrderingBy}
    {ts ts' : List String} {o : Option (List OrderingBy)}
    {ro : List (String × List OrderingBy)}
    (h : routeOrdering tn tfs rns (some l) ts = .ok (ts', o, ro)) :
    ∀ ob ∈ l, splitHead ob.field = none → ob.field ∈ ts' := by
  intro ob hmem hsp
  simp only [routeOrdering] at h
  cases heq : routeOrderList tn tfs rns l ts [] [] with
  | error e => rw [heq] at h; simp at h
  | ok out =>
    obtain ⟨a, b, c⟩ := out
    rw [heq] at h
    simp only [Except.ok.injEq, Prod.mk.injEq] at h
    exact h.1 ▸ routeOrderList_adds tn tfs rns _ _ _ _ _ _ _ heq ob hmem hsp

theorem routeOrdering_sub {tn : String} {tfs rns : List String}
    {og : Option (List OrderingBy)} {ts ts' : List String} {o : Option (List OrderingBy)}
    {ro : List (String × List OrderingBy)}
    (h : routeOrdering tn tfs rns og ts = .ok (ts', o, ro)) :
    ∀ x ∈ ts', x ∈ ts ∨ x ∈ tfs := by
  intro x hx
  cases og with
  | none =>
    simp only [routeOrdering, Except.ok.injEq, Prod.mk.injEq] at h
    exact .inl (h.1 ▸ hx)
  | some l =>
    simp only [routeOrdering] at h
    cases heq : routeOrderList tn tfs rns l ts [] [] with
    | error e => rw [heq] at h; simp at h
    | ok out =>
      obtain ⟨a, b, c⟩ := out
      rw [heq] at h
      simp only [Except.ok.injEq, Prod.mk.injEq] at h
      exact routeOrderList_sub tn tfs rns _ _ _ _ _ _ _ heq x (h.1 ▸ hx)

theorem tableFieldsOf_not_rel (m : EntityMeta) :
    ∀ x ∈ tableFieldsOf m, x ∉ relNamesOf m := by
  intro x hx
  simp only [tableFieldsOf, List.mem_filter, decide_eq_true_eq] at hx
  exact hx.2

theorem assocSet_keys {α : Type} (m : List (String × α)) (k : String) (v : α) :
    ∀ x ∈ (assocSet m k v).map Prod.fst, x ∈ m.map Prod.fst ∨ x = k := by
  intro x hx
  unfold assocSet at hx
  split at hx
  · rw [List.map_map] at hx
    rcases List.mem_map.mp hx with ⟨q, hq, hfx⟩
    by_cases hqk : q.1 = k
    · right
      rw [← hfx]
      simp [hqk]
    · left
      rw [← hfx]
      simp only [Function.comp_apply, beq_iff_eq, hqk, if_false]
      exact List.mem_map_of_mem _ hq
  · rw [List.map_append] at hx
    rcases List.mem_append.mp hx with h1 | h1
    · exact .inl h1
    · right
      simpa using h1

theorem foldl_assocSet_keys (rels : List RelationMeta) :
    ∀ (init : List (String × List String)) (x : String),
      x ∈ (rels.foldl (fun rs r => assocSet rs r.propertyPath ([] : List String)) init).map
        Prod.fst →
      x ∈ init.map Prod.fst ∨ ∃ r ∈ rels, r.propertyPath = x := by
  induction rels with
  | nil => intro init x hx; exact .inl hx
  | cons r rest ih =>
    intro init x hx
    simp only [List.foldl_cons] at hx
    rcases ih _ x hx with h1 | h1
    · rcases assocSet_keys _ _ _ x h1 with h2 | h2
      · exact .inl h2
      · exact .inr ⟨r, by simp, h2.symm⟩
    · rcases h1 with ⟨r', hr', he⟩
      exact .inr ⟨r', by simp [hr'], he⟩

theorem defaultRelationKeys_mem (m : EntityMeta) (fo : CommonFindOptions)
    (explored : List String) :
    ∀ r ∈ defaultRelationKeys m fo explored,
      r ∈ m.relations ∧
        (r.inverseTableName ∉ explored ∨ r.inverseTableName ∈ fo.allowRecursively) := by
  intro r hr
  unfold defaultRelationKeys at hr
  simp only [List.mem_filter, Bool.or_eq_true, decide_eq_true_eq] at hr
  rcases hr with ⟨h1, h2⟩
  refine ⟨?_, h2⟩
  split at h1
  · exact (List.mem_filter.mp h1).1
  · exact h1

theorem buildQueryTree_name (db : DataSource) :
    ∀ (fuel : Nat) (table pp : String) (fo : CommonFindOptions) (qo : CommonQueryOptions)
      (explored : List String) (t : QueryTree) (ex : List String),
      buildQueryTree db fuel table pp fo qo explored = .ok (t, ex) → t.name = pp := by
  intro fuel
  cases fuel with
  | zero =>
    intro table pp fo qo explored t ex h
    simp [buildQueryTree] at h
  | succ n =>
    intro table pp fo qo explored t ex h
    simp only [buildQueryTree] at h
    split at h
    · simp at h
    · split at h
      · simp at h
      · split at h
        · simp at h
        · split at h
          · simp at h
          · split at h
            · simp at h
            · simp only [Except.ok.injEq, Prod.mk.injEq] at h
              rw [← h.1]
              rfl

theorem buildChildren_names
    (recur : String → String → CommonQueryOptions → List String →
      Except BuildErr (QueryTree × List String))
    (relations : List RelationMeta) (rf : List (String × List FilterType))
    (ro : List (String × List OrderingBy))
    (hname : ∀ tt p q e child e', recur tt p q e = .ok (child, e') → child.name = p) :
    ∀ (lst : List (String × List String)) (explored : List String) children ex,
      buildChildren recur relations rf ro lst explored = .ok (children, ex) →
      children.map QueryTree.name = lst.map Prod.fst := by
  intro lst
  induction lst with
  | nil =>
    intro explored children ex h
    simp only [buildChildren, Except.ok.injEq, Prod.mk.injEq] at h
    simp [← h.1]
  | cons kv rest ih =>
    obtain ⟨k, s⟩ := kv
    intro explored children ex h
    simp only [buildChildren] at h
    split at h
    · simp at h
    · split at h
      · simp at h
      · rename_i child explored' hrec
        split at h
        · simp at h
        · rename_i children' e'' hrest
          simp only [Except.ok.injEq, Prod.mk.injEq] at h
          rw [← h.1]
          simp only [List.map_cons]
          rw [hname _ _ _ _ _ _ hrec, ih _ _ _ hrest]

theorem buildChildren_mem
    (recur : String → String → CommonQueryOptions → List String →
      Except BuildErr (QueryTree × List String))
    (relations : List RelationMeta) (rf : List (String × List FilterType))
    (ro : List (String × List OrderingBy)) :
    ∀ (lst : List (String × List String)) (explored : List String) children ex,
      buildChildren recur relations rf ro lst explored = .ok (children, ex) →
      ∀ k s, (k, s) ∈ lst →
        ∃ tt e1 child e2, relationTableLookup relations k = some tt ∧
          recur tt k
            { selections := some s
              ordering := assocGet ro k
              whereF := assocGet rf k } e1 = .ok (child, e2) ∧
          child ∈ children := by
  intro lst
  induction lst with
  | nil => intro explored children ex _ k s hmem; simp at hmem
  | cons kv rest ih =>
    obtain ⟨k0, s0⟩ := kv
    intro explored children ex h k s hmem
    simp only [buildChildren] at h
    split at h
    · simp at h
    · rename_i targetTable htt
      split at h
      · simp at h
      · rename_i child explored' hrec
        split at h
        · simp at h
        · rename_i children' e'' hrest
          simp only [Except.ok.injEq, Prod.mk.injEq] at h
          rcases List.mem_cons.mp hmem with heq | hmem'
          · obtain ⟨hk, hs⟩ := Prod.mk.injEq .. ▸ heq
            injection heq with hk hs
            subst hk; subst hs
            exact ⟨targetTable, explored, child, explored', htt, hrec,
              h.1 ▸ List.mem_cons_self _ _⟩
          · rcases ih _ _ _ hrest k s hmem' with ⟨tt, e1, child2, e2, h1, h2, h3⟩
            exact ⟨tt, e1, child2, e2, h1, h2, h.1 ▸ List.mem_cons_of_mem _ h3⟩

theorem buildQueryTree_ok_elim {db : DataSource} {fuel : Nat} {table pp : String}
    {fo : CommonFindOptions} {qo : CommonQueryOptions} {explored : List String}
    {t : QueryTree} {ex2 : List String}
    (h : buildQueryTree db (fuel + 1) table pp fo qo explored = .ok (t, ex2)) :
    ∃ m ts0 relSels ts1 w relFilters ts2 o relOrders children,
      getMetadata db table = some m ∧
      routeSelections m fo (explored ++ [m.tableName]) qo.selections = .ok (ts0, relSels) ∧
      routeWhere m.tableName (tableFieldsOf m) (relNamesOf m) qo.whereF ts0 =
        .ok (ts1, w, relFilters) ∧
      routeOrdering m.tableName (tableFieldsOf m) (relNamesOf m) qo.ordering ts1 =
        .ok (ts2, o, relOrders) ∧
      buildChildren (fun t2 p2 q2 e2 => buildQueryTree db fuel t2 p2 fo q2 e2)
        m.relations relFilters relOrders relSels (explored ++ [m.tableName]) =
        .ok (children, ex2) ∧
      t = .mk pp ⟨w, o⟩ (ts2.map (fun s => .mk s {} []) ++ children) := by
  simp only [buildQueryTree] at h
  split at h
  · simp at h
  · rename_i m hm
    split at h
    · simp at h
    · rename_i ts0 relSels hsel
      split at h
      · simp at h
      · rename_i ts1 w relFilters hw
        split at h
        · simp at h
        · rename_i ts2 o relOrders ho
          split at h
          · simp at h
          · rename_i children ex2' hch
            simp only [Except.ok.injEq, Prod.mk.injEq] at h
            exact ⟨m, ts0, relSels, ts1, w, relFilters, ts2, o, relOrders, children,
              hm, hsel, hw, ho, h.2 ▸ hch, h.1.symm⟩

/-- C5: a this-level where or ordering field that passes validation against
the node's table fields produces a leaf child node for that field in the
built tree, whether or not it was explicitly selected (filter/order implies
select). -/
theorem filter_order_field_forces_leaf {db : DataSource} {fuel : Nat} {table pp : String}
    {fo : CommonFindOptions} {qo : CommonQueryOptions} {explored : List String}
    {m : EntityMeta} {t : QueryTree} {ex2 : List String} {f : String}
    (hm : getMetadata db table = some m)
    (h : buildQueryTree db (fuel + 1) table pp fo qo explored = .ok (t, ex2))
    (hv : f ∈ tableFieldsOf m)
    (hf : (∃ filt ∈ qo.whereF.getD [], filt.field = f ∧ splitHead f = none) ∨
          (∃ ob ∈ qo.ordering.getD [], ob.field = f ∧ splitHead f = none)) :
    QueryTree.mk f {} [] ∈ t.fields := by
  obtain ⟨m', ts0, relSels, ts1, w, relFilters, ts2, o, relOrders, children,
    hm', hsel, hw, ho, hch, ht⟩ := buildQueryTree_ok_elim h
  rw [hm] at hm'
  injection hm' with hmm
  subst hmm
  have hts2 : f ∈ ts2 := by
    rcases hf with ⟨filt, hmem, hfe, hsp⟩ | ⟨ob, hmem, hfe, hsp⟩
    · cases hwf : qo.whereF with
      | none => rw [hwf] at hmem; simp at hmem
      | some l =>
        rw [hwf] at hmem hw
        simp only [Option.getD_some] at hmem
        have h1 : f ∈ ts1 := hfe ▸ routeWhere_adds hw filt hmem (hfe ▸ hsp)
        exact routeOrdering_mono ho f h1
    · cases hor : qo.ordering with
      | none => rw [hor] at hmem; simp at hmem
      | some l =>
        rw [hor] at hmem ho
        simp only [Option.getD_some] at hmem
        exact hfe ▸ routeOrdering_adds ho ob hmem (hfe ▸ hsp)
  rw [ht]
  simp only [QueryTree.fields]
  exact List.mem_append_left _
    (List.mem_map_of_mem (fun s => QueryTree.mk s {} []) hts2)

/-- Witness for C5: on `dbOne`, a where predicate on the unselected `name`
column adds the `name` leaf next to the explicitly selected `id`. -/
theorem filter_order_field_forces_leaf_witness :
    getMetadata dbOne "e" =
      some { tableName := "e", columns := ["id", "name"], relations := [] } ∧
    "name" ∈ tableFieldsOf { tableName := "e", columns := ["id", "name"], relations := [] } ∧
    QueryTree.mk "name" {} [] ∈
      (QueryTree.mk "e" ⟨some [⟨"name", FilterOperator.EQUAL, "x"⟩], none⟩
        [QueryTree.mk "id" {} [], QueryTree.mk "name" {} []]).fields := by
  refine ⟨rfl, by decide, ?_⟩
  exact @filter_order_field_forces_leaf dbOne 4 "e" "e" {}
    ⟨some ["id"], some [⟨"name", FilterOperator.EQUAL, "x"⟩], none⟩ []
    { tableName := "e", columns := ["id", "name"], relations := [] }
    (QueryTree.mk "e" ⟨some [⟨"name", FilterOperator.EQUAL, "x"⟩], none⟩
      [QueryTree.mk "id" {} [], QueryTree.mk "name" {} []]) ["e"] "name"
    rfl rfl (by decide)
    (.inl ⟨⟨"name", FilterOperator.EQUAL, "x"⟩, by simp, rfl, rfl⟩)

theorem buildQueryTree_err_sel {db : DataSource} {fuel : Nat} {table pp : String}
    {fo : CommonFindOptions} {qo : CommonQueryOptions} {explored : List String}
    {m : EntityMeta} {e : BuildErr}
    (hm : getMetadata db table = some m)
    (hs : routeSelections m fo (explored ++ [m.tableName]) qo.selections = .error e) :
    buildQueryTree db (fuel + 1) table pp fo qo explored = .error e := by
  simp [buildQueryTree, hm, hs]

theorem buildQueryTree_err_where {db : DataSource} {fuel : Nat} {table pp : String}
    {fo : CommonFindOptions} {qo : CommonQueryOptions} {explored : List String}
    {m : EntityMeta} {ts0 : List String} {relSels : List (String × List String)}
    {e : BuildErr}
    (hm : getMetadata db table = some m)
    (hs : routeSelections m fo (explored ++ [m.tableName]) qo.selections = .ok (ts0, relSels))
    (hw : routeWhere m.tableName (tableFieldsOf m) (relNamesOf m) qo.whereF ts0 = .error e) :
    buildQueryTree db (fuel + 1) table pp fo qo explored = .error e := by
  simp [buildQueryTree, hm, hs, hw]

theorem buildQueryTree_err_order {db : DataSource} {fuel : Nat} {table pp : String}
    {fo : CommonFindOptions} {qo : CommonQueryOptions} {explored : List String}
    {m : EntityMeta} {ts0 ts1 : List String} {relSels : List (String × List String)}
    {w : Option (List FilterType)} {relFilters : List (String × List FilterType)}
    {e : BuildErr}
    (hm : getMetadata db table = some m)
    (hs : routeSelections m fo (explored ++ [m.tableName]) qo.selections = .ok (ts0, relSels))
    (hw : routeWhere m.tableName (tableFieldsOf m) (relNamesOf m) qo.whereF ts0 =
      .ok (ts1, w, relFilters))
    (ho : routeOrdering m.tableName (tableFieldsOf m) (relNamesOf m) qo.ordering ts1 =
      .error e) :
    buildQueryTree db (fuel + 1) table pp fo qo explored = .error e := by
  simp [buildQueryTree, hm, hs, hw, ho]

theorem routeSelections_ok_of_no_offender (m : EntityMeta) (fo : CommonFindOptions)
    (explored : List String) (sels : Option (List String))
    (h : ∀ f ∈ expandWildcard (tableFieldsOf m) (sels.getD []),
      ¬selOffender (tableFieldsOf m) (relNamesOf m) f) :
    ∃ out, routeSelections m fo explored sels = .ok out := by
  cases sels with
  | none => exact ⟨_, rfl⟩
  | some l =>
    cases l with
    | nil => exact ⟨_, rfl⟩
    | cons s0 ss =>
      simp only [Option.getD_some] at h
      simp only [routeSelections]
      exact routeSelList_ok m.tableName (tableFieldsOf m) (relNamesOf m) _ [] [] h

theorem routeWhere_ok_of_no_offender (tn : String) (tfs rns : List String)
    (wf : Option (List FilterType)) (ts : List String)
    (h : ∀ filt ∈ wf.getD [], ¬clauseOffender tfs rns filt.field) :
    ∃ out, routeWhere tn tfs rns wf ts = .ok out := by
  cases wf with
  | none => exact ⟨_, rfl⟩
  | some l =>
    simp only [Option.getD_some] at h
    rcases routeWhereList_ok tn tfs rns l ts [] [] h with ⟨⟨a, b, c⟩, hout⟩
    exact ⟨(a, some b, c), by simp [routeWhere, hout]⟩

theorem routeOrdering_ok_of_no_offender (tn : String) (tfs rns : List String)
    (og : Option (List OrderingBy)) (ts : List String)
    (h : ∀ ob ∈ og.getD [], ¬clauseOffender tfs rns ob.field) :
    ∃ out, routeOrdering tn tfs rns og ts = .ok out := by
  cases og with
  | none => exact ⟨_, rfl⟩
  | some l =>
    simp only [Option.getD_some] at h
    rcases routeOrderList_ok tn tfs rns l ts [] [] h with ⟨⟨a, b, c⟩, hout⟩
    exact ⟨(a, some b, c), by simp [routeOrdering, hout]⟩

theorem routeErrMsg_names (tn f : String) :
    (∃ p q1, routeErrMsg tn f = p ++ offenderName f ++ q1) ∧
    (∃ p q1, routeErrMsg tn f = p ++ tn ++ q1) := by
  unfold routeErrMsg offenderName
  cases hsp : splitHead f with
  | some pr =>
    obtain ⟨r, s⟩ := pr
    simp only [hsp]
    constructor
    · exact ⟨"Relation '", "' does not exist in " ++ tn ++ " entity", by
        simp [relationMsg, String.append_assoc]⟩
    · exact ⟨"Relation '" ++ r ++ "' does not exist in ", " entity", by
        simp [relationMsg, String.append_assoc]⟩
  | none =>
    simp only [hsp]
    constructor
    · exact ⟨"Field '", "' does not exist in " ++ tn ++ " entity", by
        simp [fieldMsg, String.append_assoc]⟩
    · exact ⟨"Field '" ++ f ++ "' does not exist in ", " entity", by
        simp [fieldMsg, String.append_assoc]⟩

/-- C9: a selection, where or ordering entry whose this-level field is not a
table field of the current entity, or whose relation prefix is not a
relation of it, makes tree construction throw a
`RepositoryInvalidArgumentException` synchronously, whose message names an
offending field or relation and the entity it was checked against; the
repository's `find` then fails with the same exception with no dispatch to
the execution resource. -/
theorem invalid_entry_raises_invalid_argument {db : DataSource} {fuel : Nat} {table : String}
    {fo : CommonFindOptions} {qo : CommonQueryOptions} {m : EntityMeta}
    (hm : getMetadata db table = some m)
    (hoff : (∃ f ∈ expandWildcard (tableFieldsOf m) (qo.selections.getD []),
              selOffender (tableFieldsOf m) (relNamesOf m) f) ∨
            (∃ filt ∈ qo.whereF.getD [],
              clauseOffender (tableFieldsOf m) (relNamesOf m) filt.field) ∨
            (∃ ob ∈ qo.ordering.getD [],
              clauseOffender (tableFieldsOf m) (relNamesOf m) ob.field)) :
    ∃ f,
      ((f ∈ expandWildcard (tableFieldsOf m) (qo.selections.getD []) ∧
          selOffender (tableFieldsOf m) (relNamesOf m) f) ∨
        ((∃ filt ∈ qo.whereF.getD [], filt.field = f) ∧
          clauseOffender (tableFieldsOf m) (relNamesOf m) f) ∨
        ((∃ ob ∈ qo.ordering.getD [], ob.field = f) ∧
          clauseOffender (tableFieldsOf m) (relNamesOf m) f)) ∧
      (∃ p q1, routeErrMsg m.tableName f = p ++ offenderName f ++ q1) ∧
      (∃ p q1, routeErrMsg m.tableName f = p ++ m.tableName ++ q1) ∧
      (∀ pp explored, buildQueryTree db (fuel + 1) table pp fo qo explored =
        .error (.invalidArgument (routeErrMsg m.tableName f))) ∧
      (∀ (T : Type) (executor : ExecCall → List T × Nat) (skip take : Option Nat),
        DynamicRepository.find db executor (fuel + 1) table qo fo skip take =
          .error (.invalidArgument (routeErrMsg m.tableName f))) := by
  suffices hx : ∃ f,
      ((f ∈ expandWildcard (tableFieldsOf m) (qo.selections.getD []) ∧
          selOffender (tableFieldsOf m) (relNamesOf m) f) ∨
        ((∃ filt ∈ qo.whereF.getD [], filt.field = f) ∧
          clauseOffender (tableFieldsOf m) (relNamesOf m) f) ∨
        ((∃ ob ∈ qo.ordering.getD [], ob.field = f) ∧
          clauseOffender (tableFieldsOf m) (relNamesOf m) f)) ∧
      (∀ pp explored, buildQueryTree db (fuel + 1) table pp fo qo explored =
        .error (.invalidArgument (routeErrMsg m.tableName f))) by
    rcases hx with ⟨f, hdesc, hbuild⟩
    refine ⟨f, hdesc, (routeErrMsg_names m.tableName f).1,
      (routeErrMsg_names m.tableName f).2, hbuild, ?_⟩
    intro T executor skip take
    simp only [DynamicRepository.find, createTree]
    rw [hbuild table []]
  by_cases hsoff : ∃ f ∈ expandWildcard (tableFieldsOf m) (qo.selections.getD []),
      selOffender (tableFieldsOf m) (relNamesOf m) f
  · cases hq : qo.selections with
    | none =>
      exfalso
      rw [hq] at hsoff
      simp [expandWildcard] at hsoff
    | some sels =>
      cases sels with
      | nil =>
        exfalso
        rw [hq] at hsoff
        simp [expandWildcard] at hsoff
      | cons s0 ss =>
        rw [hq] at hsoff
        simp only [Option.getD_some] at hsoff
        rcases routeSelList_err m.tableName (tableFieldsOf m) (relNamesOf m) _ hsoff with
          ⟨f, h1, h2, h3⟩
        refine ⟨f, .inl ⟨by simpa using h2, h1⟩, ?_⟩
        intro pp explored
        apply buildQueryTree_err_sel hm
        rw [hq]
        simp only [routeSelections]
        exact h3 [] []
  · push_neg at hsoff
    by_cases hwoff : ∃ filt ∈ qo.whereF.getD [],
        clauseOffender (tableFieldsOf m) (relNamesOf m) filt.field
    · cases hqw : qo.whereF with
      | none =>
        exfalso
        rw [hqw] at hwoff
        simp at hwoff
      | some lw =>
        rw [hqw] at hwoff
        simp only [Option.getD_some] at hwoff
        rcases routeWhereList_err m.tableName (tableFieldsOf m) (relNamesOf m) lw hwoff with
          ⟨f, h1, h2, h3⟩
        refine ⟨f, .inr (.inl ⟨by simpa using h2, h1⟩), ?_⟩
        intro pp explored
        rcases routeSelections_ok_of_no_offender m fo (explored ++ [m.tableName])
          qo.selections hsoff with ⟨⟨ts0, relSels⟩, hsok⟩
        apply buildQueryTree_err_where hm hsok
        rw [hqw]
        simp [routeWhere, h3 ts0 [] []]
    · have hooff : ∃ ob ∈ qo.ordering.getD [],
          clauseOffender (tableFieldsOf m) (relNamesOf m) ob.field := by
        rcases hoff with hc | hc | hc
        · exact absurd hc (by push_neg; exact hsoff)
        · exact absurd hc hwoff
        · exact hc
      push_neg at hwoff
      cases hqo : qo.ordering with
      | none =>
        exfalso
        rw [hqo] at hooff
        simp at hooff
      | some lo =>
        rw [hqo] at hooff
        simp only [Option.getD_some] at hooff
        rcases routeOrderList_err m.tableName (tableFieldsOf m) (relNamesOf m) lo hooff with
          ⟨f, h1, h2, h3⟩
        refine ⟨f, .inr (.inr ⟨by simpa using h2, h1⟩), ?_⟩
        intro pp explored
        rcases routeSelections_ok_of_no_offender m fo (explored ++ [m.tableName])
          qo.selections hsoff with ⟨⟨ts0, relSels⟩, hsok⟩
        rcases routeWhere_ok_of_no_offender m.tableName (tableFieldsOf m) (relNamesOf m)
          qo.whereF ts0 hwoff with ⟨⟨ts1, w, relFilters⟩, hwok⟩
        apply buildQueryTree_err_order hm hsok hwok
        rw [hqo]
        simp [routeOrdering, h3 ts1 [] []]

/-- Witness for C9: the unknown selection entry `bogus` on entity `e` makes
construction and `find` throw the invalid-argument exception naming both. -/
theorem invalid_entry_raises_witness :
    getMetadata dbOne "e" = some ⟨"e", ["id", "name"], []⟩ ∧
    ∃ f,
      ((f ∈ (["bogus"] : List String) ∧ selOffender ["id", "name"] [] f) ∨
        ((∃ filt ∈ ([] : List FilterType), filt.field = f) ∧
          clauseOffender ["id", "name"] [] f) ∨
        ((∃ ob ∈ ([] : List OrderingBy), ob.field = f) ∧
          clauseOffender ["id", "name"] [] f)) ∧
      (∃ p q1, routeErrMsg "e" f = p ++ offenderName f ++ q1) ∧
      (∃ p q1, routeErrMsg "e" f = p ++ "e" ++ q1) ∧
      (∀ pp explored,
        buildQueryTree dbOne 3 "e" pp {} ⟨some ["bogus"], none, none⟩ explored =
          .error (.invalidArgument (routeErrMsg "e" f))) ∧
      (∀ (T : Type) (executor : ExecCall → List T × Nat) (skip take : Option Nat),
        DynamicRepository.find dbOne executor 3 "e" ⟨some ["bogus"], none, none⟩ {}
            skip take =
          .error (.invalidArgument (routeErrMsg "e" f))) :=
  ⟨rfl, @invalid_entry_raises_invalid_argument dbOne 2 "e" {} ⟨some ["bogus"], none, none⟩
    ⟨"e", ["id", "name"], []⟩ rfl (.inl ⟨"bogus", by decide, by decide, by decide⟩)⟩

/-- C2 (amended): the cycle rule lives in default-selection mode only — for
a node built with no (or empty) explicit selections, a relation whose target
table is already explored and is not listed in `allowRecursively` yields no
child; explicitly selected relations bypass the rule (see the
counterexample), and a listed table stays allowed at every depth. -/
theorem default_mode_cycle_rule {db : DataSource} {fuel : Nat} {table pp : String}
    {fo : CommonFindOptions} {qo : CommonQueryOptions} {explored : List String}
    {m : EntityMeta} {t : QueryTree} {ex2 : List String} {rel : RelationMeta}
    (hm : getMetadata db table = some m)
    (hsel : qo.selections = none ∨ qo.selections = some [])
    (h : buildQueryTree db (fuel + 1) table pp fo qo explored = .ok (t, ex2))
    (hrel : rel ∈ m.relations)
    (hnd : (relNamesOf m).Nodup)
    (hexp : rel.inverseTableName ∈ explored ++ [m.tableName])
    (hallow : rel.inverseTableName ∉ fo.allowRecursively) :
    ∀ c ∈ t.fields, c.name ≠ rel.propertyPath := by
  obtain ⟨m', ts0, relSels, ts1, w, rf', ts2, o, ro', children, hm', hs, hw, ho, hch, ht⟩ :=
    buildQueryTree_ok_elim h
  rw [hm] at hm'
  injection hm' with hmm
  subst hmm
  have hdef : ts0 = tableFieldsOf m ∧
      relSels = (defaultRelationKeys m fo (explored ++ [m.tableName])).foldl
        (fun rs r => assocSet rs r.propertyPath []) [] := by
    rcases hsel with hn | hn <;>
    · rw [hn] at hs
      simp only [routeSelections, Except.ok.injEq, Prod.mk.injEq] at hs
      exact ⟨hs.1.symm, hs.2.symm⟩
  intro c hc hname
  rw [ht] at hc
  simp only [QueryTree.fields] at hc
  rcases List.mem_append.mp hc with hcl | hcr
  · rcases List.mem_map.mp hcl with ⟨s, hs2, hcs⟩
    have hcname : c.name = s := by rw [← hcs]; rfl
    have hstf : s ∈ tableFieldsOf m := by
      rcases routeOrdering_sub ho s hs2 with h1 | h1
      · rcases routeWhere_sub hw s h1 with h2 | h2
        · rw [hdef.1] at h2; exact h2
        · exact h2
      · exact h1
    have hrelname : rel.propertyPath ∈ relNamesOf m := List.mem_map_of_mem _ hrel
    rw [hcname] at hname
    exact tableFieldsOf_not_rel m s hstf (hname ▸ hrelname)
  · have hnames := buildChildren_names _ m.relations rf' ro'
      (fun tt p q e child e' hh => buildQueryTree_name db fuel tt p fo q e child e' hh)
      relSels _ children ex2 hch
    have hcn : c.name ∈ children.map QueryTree.name := List.mem_map_of_mem _ hcr
    rw [hnames, hdef.2] at hcn
    rcases foldl_assocSet_keys _ _ _ hcn with h1 | h1
    · simp at h1
    · rcases h1 with ⟨r', hr', he⟩
      rcases defaultRelationKeys_mem m fo _ r' hr' with ⟨hr'm, hpred⟩
      have hnd' : (m.relations.map (·.propertyPath)).Nodup := hnd
      have hr'eq : r' = rel := by
        apply List.inj_on_of_nodup_map hnd' hr'm hrel
        rw [he, hname]
      rw [hr'eq] at hpred
      rcases hpred with hp | hp
      · exact hp hexp
      · exact hallow hp

/-- Witness for C2 (amended): at the `b` node of `dbCycle` with `a` already
explored and no recursion allowance, the relation back to `a` yields no
child. -/
theorem default_mode_cycle_rule_witness :
    buildQueryTree dbCycle 5 "b" "b" {} {} ["a"] =
      .ok (QueryTree.mk "b" {} [QueryTree.mk "idb" {} []], ["a", "b"]) ∧
    (∀ c ∈ (QueryTree.mk "b" {} [QueryTree.mk "idb" {} []]).fields, c.name ≠ "a") := by
  refine ⟨rfl, ?_⟩
  have hthm := @default_mode_cycle_rule dbCycle 4 "b" "b" {} {} ["a"]
    ⟨"b", ["idb"], [⟨"a", "a", true, [], [], none⟩]⟩
    (QueryTree.mk "b" {} [QueryTree.mk "idb" {} []]) ["a", "b"]
    ⟨"a", "a", true, [], [], none⟩ rfl (.inl rfl) rfl (by decide) (by decide)
    (by decide) (by decide)
  exact hthm

theorem routeSelections_ts_sub {m : EntityMeta} {fo : CommonFindOptions}
    {explored : List String} {sels : Option (List String)} {ts0 : List String}
    {relSels : List (String × List String)}
    (h : routeSelections m fo explored sels = .ok (ts0, relSels)) :
    ∀ x ∈ ts0, x ∈ tableFieldsOf m := by
  intro x hx
  cases sels with
  | none =>
    simp only [routeSelections, Except.ok.injEq, Prod.mk.injEq] at h
    exact (h.1 ▸ hx)
  | some l =>
    cases l with
    | nil =>
      simp only [routeSelections, Except.ok.injEq, Prod.mk.injEq] at h
      exact (h.1 ▸ hx)
    | cons s0 ss =>
      simp only [routeSelections] at h
      have hchar := routeSelList_char m.tableName (tableFieldsOf m) (relNamesOf m) _ _ _ _ _ h
      rw [hchar] at hx
      simp only [List.nil_append, List.mem_filter] at hx
      have := hx.2
      simp only [isTableFieldEntry, Bool.and_eq_true, decide_eq_true_eq] at this
      exact this.2

/-- C1 (amended): the relation subtrees of a built node come exactly from
selection routing — every relation key accumulated by selection routing
yields a recursively built subtree among the node's children, and a relation
of the entity absent from those keys (in particular one accumulated only by
where or ordering routing) yields no child at all, its routed filters and
orderings being dropped. -/
theorem relation_subtrees_only_from_selection_routing {db : DataSource} {fuel : Nat}
    {table pp : String} {fo : CommonFindOptions} {qo : CommonQueryOptions}
    {explored : List String} {m : EntityMeta} {t : QueryTree} {ex2 : List String}
    {ts0 : List String} {relSels : List (String × List String)}
    (hm : getMetadata db table = some m)
    (h : buildQueryTree db (fuel + 1) table pp fo qo explored = .ok (t, ex2))
    (hsel : routeSelections m fo (explored ++ [m.tableName]) qo.selections =
      .ok (ts0, relSels)) :
    (∀ k s, (k, s) ∈ relSels →
      ∃ tt qo' e1 child e2, relationTableLookup m.relations k = some tt ∧
        buildQueryTree db fuel tt k fo qo' e1 = .ok (child, e2) ∧
        child ∈ t.fields ∧ child.name = k) ∧
    (∀ r, r ∈ relNamesOf m → r ∉ relSels.map Prod.fst →
      ∀ c ∈ t.fields, c.name ≠ r) := by
  obtain ⟨m', ts0', relSels', ts1, w, rf', ts2, o, ro', children, hm', hs, hw, ho, hch, ht⟩ :=
    buildQueryTree_ok_elim h
  rw [hm] at hm'
  injection hm' with hmm
  subst hmm
  rw [hsel] at hs
  simp only [Except.ok.injEq, Prod.mk.injEq] at hs
  obtain ⟨hts, hrs⟩ := hs
  subst hts
  subst hrs
  constructor
  · intro k s hks
    rcases buildChildren_mem _ m.relations rf' ro' relSels _ children ex2 hch k s hks with
      ⟨tt, e1, child, e2, htt, hrec, hchild⟩
    refine ⟨tt, _, e1, child, e2, htt, hrec, ?_, ?_⟩
    · rw [ht]
      simp only [QueryTree.fields]
      exact List.mem_append_right _ hchild
    · exact buildQueryTree_name db fuel tt k fo _ e1 child e2 hrec
  · intro r hrn hrk c hc hcname
    rw [ht] at hc
    simp only [QueryTree.fields] at hc
    rcases List.mem_append.mp hc with hcl | hcr
    · rcases List.mem_map.mp hcl with ⟨s, hs2, hcs⟩
      have hcn : c.name = s := by rw [← hcs]; rfl
      have hstf : s ∈ tableFieldsOf m := by
        rcases routeOrdering_sub ho s hs2 with h1 | h1
        · rcases routeWhere_sub hw s h1 with h2 | h2
          · exact routeSelections_ts_sub hsel s h2
          · exact h2
        · exact h1
      rw [hcn] at hcname
      exact tableFieldsOf_not_rel m s hstf (hcname ▸ hrn)
    · have hnames := buildChildren_names _ m.relations rf' ro'
        (fun tt p q e child e' hh => buildQueryTree_name db fuel tt p fo q e child e' hh)
        relSels _ children ex2 hch
      have hcn : c.name ∈ children.map QueryTree.name := List.mem_map_of_mem _ hcr
      rw [hnames] at hcn
      exact hrk (hcname ▸ hcn)

/-- Witness for C1 (amended): on `dbFilterRel` with explicit selections
`["id"]` and the where entry `r.x`, selection routing yields no relation
keys, and the built node has no child named `r`. -/
theorem relation_subtrees_only_from_selection_routing_witness :
    buildQueryTree dbFilterRel 10 "a" "a" {}
        ⟨some ["id"], some [⟨"r.x", FilterOperator.EQUAL, "5"⟩], none⟩ [] =
      .ok (QueryTree.mk "a" ⟨some [], none⟩ [QueryTree.mk "id" {} []], ["a"]) ∧
    (∀ c ∈ (QueryTree.mk "a" ⟨some [], none⟩ [QueryTree.mk "id" {} []]).fields,
      c.name ≠ "r") := by
  refine ⟨rfl, ?_⟩
  exact (@relation_subtrees_only_from_selection_routing dbFilterRel 9 "a" "a" {}
    ⟨some ["id"], some [⟨"r.x", FilterOperator.EQUAL, "5"⟩], none⟩ []
    ⟨"a", ["id"], [⟨"r", "b", false, [], [], none⟩]⟩
    (QueryTree.mk "a" ⟨some [], none⟩ [QueryTree.mk "id" {} []]) ["a"] ["id"] []
    rfl rfl rfl).2 "r" (by decide) (by decide)

theorem appendMissing_eq :
    ∀ (tf base : List String), tf.Nodup →
      appendMissing base tf = base ++ tf.filter (fun f => decide (f ∉ base)) := by
  intro tf
  induction tf with
  | nil => intro base _; simp [appendMissing]
  | cons f rest ih =>
    intro base hnd
    have hf : f ∉ rest := (List.nodup_cons.mp hnd).1
    have hnd' : rest.Nodup := (List.nodup_cons.mp hnd).2
    simp only [appendMissing]
    by_cases hb : f ∈ base
    · rw [if_pos hb, ih base hnd', List.filter_cons]
      simp [hb]
    · rw [if_neg hb, ih (base ++ [f]) hnd', List.filter_cons]
      simp only [hb, not_false_eq_true, decide_eq_true_eq, if_pos]
      have hcongr : rest.filter (fun x => decide (x ∉ base ++ [f])) =
          rest.filter (fun x => decide (x ∉ base)) := by
        apply List.filter_congr
        intro x hx
        have hxf : x ≠ f := fun hc => hf (hc ▸ hx)
        simp [List.mem_append, hxf]
      rw [hcongr, List.append_assoc]
      simp

theorem routeWhereList_noop (tn : String) (tfs rns : List String) :
    ∀ (l : List FilterType) (ts tf rf ts' tf' rf'),
      (∀ f ∈ tfs, f ∈ ts) →
      routeWhereList tn tfs rns l ts tf rf = .ok (ts', tf', rf') →
      ts' = ts := by
  intro l
  induction l with
  | nil =>
    intro ts tf rf ts' tf' rf' _ h
    simp only [routeWhereList, Except.ok.injEq, Prod.mk.injEq] at h
    exact h.1.symm
  | cons filter rest ih =>
    intro ts tf rf ts' tf' rf' hpre h
    simp only [routeWhereList] at h
    split at h
    · split at h
      · exact ih _ _ _ _ _ _ hpre h
      · simp at h
    · split at h
      · next hin =>
        rw [if_pos (hpre _ hin)] at h
        exact ih _ _ _ _ _ _ hpre h
      · simp at h

theorem routeOrderList_noop (tn : String) (tfs rns : List String) :
    ∀ (l : List OrderingBy) (ts tord ro ts' tord' ro'),
      (∀ f ∈ tfs, f ∈ ts) →
      routeOrderList tn tfs rns l ts tord ro = .ok (ts', tord', ro') →
      ts' = ts := by
  intro l
  induction l with
  | nil =>
    intro ts tord ro ts' tord' ro' _ h
    simp only [routeOrderList, Except.ok.injEq, Prod.mk.injEq] at h
    exact h.1.symm
  | cons orderBy rest ih =>
    intro ts tord ro ts' tord' ro' hpre h
    simp only [routeOrderList] at h
    split at h
    · split at h
      · exact ih _ _ _ _ _ _ hpre h
      · simp at h
    · split at h
      · next hin =>
        rw [if_pos (hpre _ hin)] at h
        exact ih _ _ _ _ _ _ hpre h
      · simp at h

theorem routeWhere_noop {tn : String} {tfs rns : List String} {wf : Option (List FilterType)}
    {ts ts' : List String} {w : Option (List FilterType)}
    {rf : List (String × List FilterType)}
    (hpre : ∀ f ∈ tfs, f ∈ ts)
    (h : routeWhere tn tfs rns wf ts = .ok (ts', w, rf)) :
    ts' = ts := by
  cases wf with
  | none =>
    simp only [routeWhere, Except.ok.injEq, Prod.mk.injEq] at h
    exact h.1.symm
  | some l =>
    simp only [routeWhere] at h
    cases heq : routeWhereList tn tfs rns l ts [] [] with
    | error e => rw [heq] at h; simp at h
    | ok out =>
      obtain ⟨a, b, c⟩ := out
      rw [heq] at h
      simp only [Except.ok.injEq, Prod.mk.injEq] at h
      rw [← h.1]
      exact routeWhereList_noop tn tfs rns _ _ _ _ _ _ _ hpre heq

theorem routeOrdering_noop {tn : String} {tfs rns : List String}
    {og : Option (List OrderingBy)} {ts ts' : List String} {o : Option (List OrderingBy)}
    {ro : List (String × List OrderingBy)}
    (hpre : ∀ f ∈ tfs, f ∈ ts)
    (h : routeOrdering tn tfs rns og ts = .ok (ts', o, ro)) :
    ts' = ts := by
  cases og with
  | none =>
    simp only [routeOrdering, Except.ok.injEq, Prod.mk.injEq] at h
    exact h.1.symm
  | some l =>
    simp only [routeOrdering] at h
    cases heq : routeOrderList tn tfs rns l ts [] [] with
    | error e => rw [heq] at h; simp at h
    | ok out =>
      obtain ⟨a, b, c⟩ := out
      rw [heq] at h
      simp only [Except.ok.injEq, Prod.mk.injEq] at h
      rw [← h.1]
      exact routeOrderList_noop tn tfs rns _ _ _ _ _ _ _ hpre heq

/-- C4 (amended): a selection list containing `*` whose entries do not
repeat a table field yields exactly the full non-relation column set, with
no duplicates and order-stable by first occurrence — the explicitly listed
table fields keep their positions and the wildcard appends each remaining
column once, in metadata order. (Without the no-repetition proviso a
duplicated explicit entry survives, see the counterexample.) -/
theorem wildcard_selection_full_column_set {db : DataSource} {fuel : Nat}
    {table pp : String} {fo : CommonFindOptions} {qo : CommonQueryOptions}
    {explored : List String} {m : EntityMeta} {t : QueryTree} {ex2 : List String}
    {sels : List String}
    (hm : getMetadata db table = some m)
    (hq : qo.selections = some sels)
    (hstar : "*" ∈ sels)
    (h : buildQueryTree db (fuel + 1) table pp fo qo explored = .ok (t, ex2))
    (htfnd : (tableFieldsOf m).Nodup)
    (hdotless : ∀ x ∈ tableFieldsOf m, splitHead x = none)
    (hnd : (sels.filter (fun f => decide (f ∈ tableFieldsOf m))).Nodup) :
    ∃ w o children,
      t = .mk pp ⟨w, o⟩
        ((((sels.filter (fun s => decide (s ≠ "*"))).filter
            (isTableFieldEntry (tableFieldsOf m) (relNamesOf m)) ++
          (tableFieldsOf m).filter
            (fun f => decide (f ∉ sels.filter (fun s => decide (s ≠ "*"))))).map
              (fun s => QueryTree.mk s {} [])) ++ children) ∧
      ((sels.filter (fun s => decide (s ≠ "*"))).filter
          (isTableFieldEntry (tableFieldsOf m) (relNamesOf m)) ++
        (tableFieldsOf m).filter
          (fun f => decide (f ∉ sels.filter (fun s => decide (s ≠ "*"))))).Nodup ∧
      ((sels.filter (fun s => decide (s ≠ "*"))).filter
          (isTableFieldEntry (tableFieldsOf m) (relNamesOf m)) ++
        (tableFieldsOf m).filter
          (fun f => decide (f ∉ sels.filter (fun s => decide (s ≠ "*"))))).Perm
        (tableFieldsOf m) := by
  obtain ⟨m', ts0, relSels, ts1, w, rf', ts2, o, ro', children, hm', hs, hw, ho, hch, ht⟩ :=
    buildQueryTree_ok_elim h
  rw [hm] at hm'
  injection hm' with hmm
  subst hmm
  set base := sels.filter (fun s => decide (s ≠ "*")) with hbase
  set tfsf := (tableFieldsOf m).filter (fun f => decide (f ∉ base)) with htfsf
  set lhsP := base.filter (isTableFieldEntry (tableFieldsOf m) (relNamesOf m)) with hlhsP
  have hsel_red : routeSelections m fo (explored ++ [m.tableName]) qo.selections =
      routeSelList m.tableName (tableFieldsOf m) (relNamesOf m)
        (expandWildcard (tableFieldsOf m) sels) [] [] := by
    rw [hq]
    cases sels with
    | nil => exact absurd hstar (by simp)
    | cons s0 ss => rfl
  rw [hsel_red] at hs
  have hexp : expandWildcard (tableFieldsOf m) sels = base ++ tfsf := by
    unfold expandWildcard
    rw [if_pos hstar, appendMissing_eq (tableFieldsOf m) base htfnd]
  have hts0 : ts0 = lhsP ++ tfsf := by
    have hchar := routeSelList_char m.tableName (tableFieldsOf m) (relNamesOf m) _ _ _ _ _ hs
    rw [hexp, List.filter_append] at hchar
    have htff : tfsf.filter (isTableFieldEntry (tableFieldsOf m) (relNamesOf m)) = tfsf := by
      rw [List.filter_eq_self]
      intro x hx
      have hxtf : x ∈ tableFieldsOf m := (List.mem_filter.mp hx).1
      simp only [isTableFieldEntry, Bool.and_eq_true, decide_eq_true_eq,
        Option.isNone_iff_eq_none]
      exact ⟨⟨hdotless x hxtf, tableFieldsOf_not_rel m x hxtf⟩, hxtf⟩
    rw [htff] at hchar
    simpa using hchar
  have hpre : ∀ f ∈ tableFieldsOf m, f ∈ ts0 := by
    intro f hf
    rw [hts0]
    by_cases hb : f ∈ base
    · refine List.mem_append_left _ (List.mem_filter.mpr ⟨hb, ?_⟩)
      simp only [isTableFieldEntry, Bool.and_eq_true, decide_eq_true_eq,
        Option.isNone_iff_eq_none]
      exact ⟨⟨hdotless f hf, tableFieldsOf_not_rel m f hf⟩, hf⟩
    · exact List.mem_append_right _ (List.mem_filter.mpr ⟨hf, by simpa using hb⟩)
  have hts1 : ts1 = ts0 := routeWhere_noop hpre hw
  have hts2 : ts2 = ts0 := by
    rw [routeOrdering_noop (fun f hf => hts1 ▸ hpre f hf) ho, hts1]
  have hlhs_nd : lhsP.Nodup := by
    have hsub : List.Sublist lhsP (sels.filter (fun f => decide (f ∈ tableFieldsOf m))) := by
      rw [hlhsP, hbase, List.filter_filter]
      apply List.monotone_filter_right
      intro a ha
      simp only [Bool.and_eq_true, decide_eq_true_eq] at ha
      have := ha.1
      simp only [isTableFieldEntry, Bool.and_eq_true, decide_eq_true_eq] at this
      simpa using this.2
    exact hsub.nodup hnd
  have hdisj : ∀ x ∈ lhsP, x ∉ tfsf := by
    intro x hx hx2
    have hxb : x ∈ base := (List.mem_filter.mp hx).1
    have := (List.mem_filter.mp hx2).2
    simp only [decide_eq_true_eq] at this
    exact this hxb
  have hnodup : (lhsP ++ tfsf).Nodup :=
    List.Nodup.append hlhs_nd (htfnd.filter _) hdisj
  have hperm : (lhsP ++ tfsf).Perm (tableFieldsOf m) := by
    rw [List.perm_ext_iff_of_nodup hnodup htfnd]
    intro a
    constructor
    · intro ha
      rcases List.mem_append.mp ha with h1 | h1
      · have := (List.mem_filter.mp h1).2
        simp only [isTableFieldEntry, Bool.and_eq_true, decide_eq_true_eq] at this
        exact this.2
      · exact (List.mem_filter.mp h1).1
    · intro ha
      have := hpre a ha
      rw [hts0] at this
      exact this
  exact ⟨w, o, children, by rw [ht, hts2, hts0], hnodup, hperm⟩

/-- Witness for C4 (amended): on entity `e`, the list `["name", "*"]`
selects `name` then appends `id`, the full duplicate-free column set. -/
theorem wildcard_selection_full_column_set_witness :
    buildQueryTree dbOne 10 "e" "e" {} ⟨some ["name", "*"], none, none⟩ [] =
      .ok (.mk "e" {} [.mk "name" {} [], .mk "id" {} []], ["e"]) ∧
    ∃ w o children,
      QueryTree.mk "e" {} [QueryTree.mk "name" {} [], QueryTree.mk "id" {} []] =
        .mk "e" ⟨w, o⟩
          ((((["name", "*"].filter (fun s => decide (s ≠ "*"))).filter
              (isTableFieldEntry (tableFieldsOf ⟨"e", ["id", "name"], []⟩)
                (relNamesOf ⟨"e", ["id", "name"], []⟩)) ++
            (tableFieldsOf ⟨"e", ["id", "name"], []⟩).filter
              (fun f => decide (f ∉ ["name", "*"].filter (fun s => decide (s ≠ "*"))))).map
                (fun s => QueryTree.mk s {} [])) ++ children) ∧
      ((["name", "*"].filter (fun s => decide (s ≠ "*"))).filter
          (isTableFieldEntry (tableFieldsOf ⟨"e", ["id", "name"], []⟩)
            (relNamesOf ⟨"e", ["id", "name"], []⟩)) ++
        (tableFieldsOf ⟨"e", ["id", "name"], []⟩).filter
          (fun f => decide (f ∉ ["name", "*"].filter (fun s => decide (s ≠ "*"))))).Nodup ∧
      ((["name", "*"].filter (fun s => decide (s ≠ "*"))).filter
          (isTableFieldEntry (tableFieldsOf ⟨"e", ["id", "name"], []⟩)
            (relNamesOf ⟨"e", ["id", "name"], []⟩)) ++
        (tableFieldsOf ⟨"e", ["id", "name"], []⟩).filter
          (fun f => decide (f ∉ ["name", "*"].filter (fun s => decide (s ≠ "*"))))).Perm
        (tableFieldsOf ⟨"e", ["id", "name"], []⟩) :=
  ⟨rfl, @wildcard_selection_full_column_set dbOne 9 "e" "e" {}
    ⟨some ["name", "*"], none, none⟩ [] ⟨"e", ["id", "name"], []⟩
    (QueryTree.mk "e" {} [QueryTree.mk "name" {} [], QueryTree.mk "id" {} []]) ["e"]
    ["name", "*"] rfl rfl (by decide) rfl (by decide) (by decide) (by decide)⟩

theorem addSelections_mono :
    ∀ (ns s : List String) (x : String), x ∈ s → x ∈ addSelections s ns := by
  intro ns
  induction ns with
  | nil => intro s x hx; exact hx
  | cons y rest ih =>
    intro s x hx
    show x ∈ addSelections (if y ∈ s then s else s ++ [y]) rest
    refine ih _ x ?_
    split
    · exact hx
    · exact List.mem_append_left _ hx

theorem addSelections_mem_new :
    ∀ (ns s : List String) (x : String), x ∈ ns → x ∈ addSelections s ns := by
  intro ns
  induction ns with
  | nil => intro s x hx; simp at hx
  | cons y rest ih =>
    intro s x hx
    show x ∈ addSelections (if y ∈ s then s else s ++ [y]) rest
    rcases List.mem_cons.mp hx with he | hr
    · subst he
      refine addSelections_mono rest _ x ?_
      split
      · next hin => exact hin
      · exact List.mem_append_right _ (by simp)
    · exact ih _ x hr

theorem selectEntityQueryFields_mono (s : List String) (tree : QueryTree) (a : String) :
    ∀ x ∈ s, x ∈ selectEntityQueryFields s tree a :=
  fun x hx => addSelections_mono _ _ x hx

theorem selectJoinNeccessaryAttributes_mono (s : List String) (r : RelationMeta)
    (a ra : String) :
    ∀ x ∈ s, x ∈ selectJoinNeccessaryAttributes s r a ra := by
  intro x hx
  simp only [selectJoinNeccessaryAttributes]
  split
  · exact addSelections_mono _ _ x (addSelections_mono _ _ x hx)
  · exact addSelections_mono _ _ x (addSelections_mono _ _ x
      (addSelections_mono _ _ x (addSelections_mono _ _ x hx)))

theorem selectJoinNeccessaryAttributes_adds (s : List String) (r : RelationMeta)
    (a ra : String) :
    (∀ c ∈ r.joinColumns, a ++ "." ++ c ∈ selectJoinNeccessaryAttributes s r a ra) ∧
    (∀ c ∈ r.inverseJoinColumns, ra ++ "." ++ c ∈ selectJoinNeccessaryAttributes s r a ra) ∧
    (∀ ir, r.inverseRelation = some ir →
      (∀ c ∈ ir.joinColumns, ra ++ "." ++ c ∈ selectJoinNeccessaryAttributes s r a ra) ∧
      (∀ c ∈ ir.inverseJoinColumns, a ++ "." ++ c ∈ selectJoinNeccessaryAttributes s r a ra)) := by
  simp only [selectJoinNeccessaryAttributes]
  split
  · next heq =>
    refine ⟨?_, ?_, ?_⟩
    · intro c hc
      exact addSelections_mono _ _ _
        (addSelections_mem_new _ _ _ (List.mem_map_of_mem _ hc))
    · intro c hc
      exact addSelections_mem_new _ _ _ (List.mem_map_of_mem _ hc)
    · intro ir hir
      rw [heq] at hir
      cases hir
  · next ir0 heq =>
    refine ⟨?_, ?_, ?_⟩
    · intro c hc
      exact addSelections_mono _ _ _ (addSelections_mono _ _ _
        (addSelections_mono _ _ _
          (addSelections_mem_new _ _ _ (List.mem_map_of_mem _ hc))))
    · intro c hc
      exact addSelections_mono _ _ _ (addSelections_mono _ _ _
        (addSelections_mem_new _ _ _ (List.mem_map_of_mem _ hc)))
    · intro ir hir
      rw [heq] at hir
      injection hir with hir
      subst hir
      constructor
      · intro c hc
        exact addSelections_mono _ _ _
          (addSelections_mem_new _ _ _ (List.mem_map_of_mem _ hc))
      · intro c hc
        exact addSelections_mem_new _ _ _ (List.mem_map_of_mem _ hc)

theorem addWhereOptions_joins (qb : QB) (tree : QueryTree) (aliasN : String) :
    (addWhereOptions qb tree aliasN).joins = qb.joins := by
  unfold addWhereOptions
  split <;> rfl

theorem addOrderByOptions_joins (qb : QB) (tree : QueryTree) (aliasN : String) :
    (addOrderByOptions qb tree aliasN).joins = qb.joins := by
  unfold addOrderByOptions
  split <;> rfl

theorem joinKeyColumns_in_selectJoin (s : List String) (r : RelationMeta) (a : String) :
    ∀ c ∈ joinKeyColumns (a, r),
      c ∈ selectJoinNeccessaryAttributes s r a (a ++ ALIAS_STRATEGY ++ r.propertyPath) := by
  intro c hc
  have adds := selectJoinNeccessaryAttributes_adds s r a (a ++ ALIAS_STRATEGY ++ r.propertyPath)
  cases hir : r.inverseRelation with
  | none =>
    simp only [joinKeyColumns, hir, List.append_nil, List.mem_append, List.mem_map] at hc
    rcases hc with ⟨x, hx, hxc⟩ | ⟨x, hx, hxc⟩
    · exact hxc ▸ adds.1 x hx
    · exact hxc ▸ adds.2.1 x hx
  | some ir =>
    simp only [joinKeyColumns, hir, List.mem_append, List.mem_map] at hc
    rcases hc with (⟨x, hx, hxc⟩ | ⟨x, hx, hxc⟩) | (⟨x, hx, hxc⟩ | ⟨x, hx, hxc⟩)
    · exact hxc ▸ adds.1 x hx
    · exact hxc ▸ adds.2.1 x hx
    · exact hxc ▸ (adds.2.2 ir hir).1 x hx
    · exact hxc ▸ (adds.2.2 ir hir).2 x hx

mutual

theorem buildQR_sel_mono (db : DataSource) (tree : QueryTree) (qb : QB) (aliasN : String)
    (m : EntityMeta) (selections : List String) :
    ∀ x ∈ selections, x ∈ (buildQueryRecursively db tree qb aliasN m selections).2 := by
  intro x hx
  cases tree with
  | mk n clauses fs =>
    simp only [buildQueryRecursively]
    exact buildRC_sel_mono db fs _ aliasN m _ x
      (selectEntityQueryFields_mono _ _ _ x hx)

theorem buildRC_sel_mono (db : DataSource) (fields : List QueryTree) (qb : QB)
    (aliasN : String) (m : EntityMeta) (selections : List String) :
    ∀ x ∈ selections, x ∈ (buildRelChildren db fields qb aliasN m selections).2 := by
  intro x hx
  cases fields with
  | nil => simpa [buildRelChildren] using hx
  | cons f rest =>
    simp only [buildRelChildren]
    split
    · split
      · exact buildRC_sel_mono db rest _ aliasN m _ x
          (buildQR_sel_mono db f _ _ _ _ x
            (selectJoinNeccessaryAttributes_mono _ _ _ _ x hx))
      · exact buildRC_sel_mono db rest qb aliasN m selections x hx
    · exact buildRC_sel_mono db rest qb aliasN m selections x hx

end

mutual

theorem buildQR_joins_eq (db : DataSource) (tree : QueryTree) (qb : QB)
    (aliasN : String) (m : EntityMeta) (selections : List String) :
    (buildQueryRecursively db tree qb aliasN m selections).1.joins =
      qb.joins ++ (resolvedJoins db tree aliasN m).map joinOf := by
  cases tree with
  | mk n clauses fs =>
    simp only [buildQueryRecursively, resolvedJoins]
    rw [buildRC_joins_eq db fs _ aliasN m _,
      addWhereOptions_joins, addOrderByOptions_joins]

theorem buildRC_joins_eq (db : DataSource) (fields : List QueryTree) (qb : QB)
    (aliasN : String) (m : EntityMeta) (selections : List String) :
    (buildRelChildren db fields qb aliasN m selections).1.joins =
      qb.joins ++ (resolvedJoinsChildren db fields aliasN m).map joinOf := by
  cases fields with
  | nil => simp [buildRelChildren, resolvedJoinsChildren]
  | cons f rest =>
    by_cases hrel : f.isRelation
    · cases hfind : m.relations.find? (fun r => r.propertyPath == f.name) with
      | some relation =>
        simp only [buildRelChildren, resolvedJoinsChildren, hrel, if_true, hfind]
        rw [buildRC_joins_eq db rest _ aliasN m _, buildQR_joins_eq db f _ _ _ _]
        simp [joinOf, List.append_assoc]
      | none =>
        simp only [buildRelChildren, resolvedJoinsChildren, hrel, if_true, hfind]
        exact buildRC_joins_eq db rest qb aliasN m selections
    · simp only [buildRelChildren, resolvedJoinsChildren, hrel]
      exact buildRC_joins_eq db rest qb aliasN m selections

end

mutual

theorem buildQR_keys_covered (db : DataSource) (tree : QueryTree) (qb : QB)
    (aliasN : String) (m : EntityMeta) (selections : List String) :
    ∀ p ∈ resolvedJoins db tree aliasN m, ∀ c ∈ joinKeyColumns p,
      c ∈ (buildQueryRecursively db tree qb aliasN m selections).2 := by
  intro p hp c hc
  cases tree with
  | mk n clauses fs =>
    simp only [resolvedJoins] at hp
    simp only [buildQueryRecursively]
    exact buildRC_keys_covered db fs _ aliasN m _ p hp c hc

theorem buildRC_keys_covered (db : DataSource) (fields : List QueryTree) (qb : QB)
    (aliasN : String) (m : EntityMeta) (selections : List String) :
    ∀ p ∈ resolvedJoinsChildren db fields aliasN m, ∀ c ∈ joinKeyColumns p,
      c ∈ (buildRelChildren db fields qb aliasN m selections).2 := by
  intro p hp c hc
  cases fields with
  | nil => simp [resolvedJoinsChildren] at hp
  | cons f rest =>
    by_cases hrel : f.isRelation
    · cases hfind : m.relations.find? (fun r => r.propertyPath == f.name) with
      | some relation =>
        simp only [resolvedJoinsChildren, hrel, if_true, hfind, List.mem_cons] at hp
        simp only [buildRelChildren, hrel, if_true, hfind]
        rcases hp with hp | hp
        · subst hp
          exact buildRC_sel_mono db rest _ aliasN m _ c
            (buildQR_sel_mono db f _ _ _ _ c
              (joinKeyColumns_in_selectJoin selections relation aliasN c hc))
        · rcases List.mem_append.mp hp with hsub | hrest
          · exact buildRC_sel_mono db rest _ aliasN m _ c
              (buildQR_keys_covered db f _ _ _ _ p hsub c hc)
          · exact buildRC_keys_covered db rest _ aliasN m _ p hrest c hc
      | none =>
        simp only [resolvedJoinsChildren, hrel, if_true, hfind] at hp
        simp only [buildRelChildren, hrel, if_true, hfind]
        exact buildRC_keys_covered db rest qb aliasN m selections p hp c hc
    · simp only [resolvedJoinsChildren, hrel] at hp
      simp only [buildRelChildren, hrel]
      exact buildRC_keys_covered db rest qb aliasN m selections p hp c hc

end

/-- C6: the generated builder's join list is exactly the list of relations
the emitter resolves, in emission order, each joined at its parent alias
under the `__` alias strategy; and for every resolved relation, every
alias-qualified join-key column of both its sides — and of both sides of
its inverse relation descriptor, when present — appears in the final
selection list of the generated builder (which is deduplicated by
`addSelections`). -/
theorem generateQueryBuilder_selects_join_keys {db : DataSource} {entityClass : String}
    {tree : QueryTree} {qb : QB} {m : EntityMeta}
    (hm : getMetadata db entityClass = some m)
    (h : generateQueryBuilder db entityClass tree = some qb) :
    qb.joins = (resolvedJoins db tree m.tableName m).map joinOf ∧
    ∀ p ∈ resolvedJoins db tree m.tableName m, ∀ c ∈ joinKeyColumns p,
      c ∈ qb.selectList := by
  unfold generateQueryBuilder at h
  rw [hm] at h
  simp only [Option.some.injEq] at h
  subst h
  constructor
  · simpa using buildQR_joins_eq db tree {} m.tableName m []
  · intro p hp c hc
    exact buildQR_keys_covered db tree {} m.tableName m [] p hp c hc

/-- Witness for C6: on `dbJoin`, the single resolved relation is `arts` at
alias `o`; its join is `("o.arts", "o__arts")` and its `aid` / `ida` join
keys and the inverse relation's `oid` / `ido` keys are all in the final
select list. -/
theorem generateQueryBuilder_selects_join_keys_witness :
    getMetadata dbJoin "o" = some mJO ∧
    generateQueryBuilder dbJoin "o" trJO = some qbJO ∧
    (QB.joins qbJO = (resolvedJoins dbJoin trJO "o" mJO).map joinOf ∧
      ∀ p ∈ resolvedJoins dbJoin trJO "o" mJO, ∀ c ∈ joinKeyColumns p,
        c ∈ QB.selectList qbJO) :=
  ⟨rfl, rfl, @generateQueryBuilder_selects_join_keys dbJoin "o" trJO qbJO mJO rfl rfl⟩

end DynRepo
